import Mathlib

/-!
Shallow embedding of the hook-transpiler core (src/jsx_parser.rs and
src/swc_transformer.rs) and proofs about it.

Strings are modelled as `List Char`; positions are character indices
(the Rust code indexes a `Vec<char>`, and the byte-index arithmetic in
`find_object_start` always lands on character boundaries, so character
indices are faithful).
-/

namespace HookT

/-- The backtick character (template-literal quote). -/
def btick : Char := Char.ofNat 96

/-- The single-quote character. -/
def squote : Char := Char.ofNat 39

/-! ## ES5 downlevel transformer (swc_transformer.rs, struct Transpiler) -/

/-- Mirrors `struct Transpiler { input, output, pos }`. -/
structure Dl where
  input : List Char
  output : List Char
  pos : Nat
deriving Repr, DecidableEq

def Dl.currentChar (st : Dl) : Option Char := st.input[st.pos]?

def Dl.peek (st : Dl) (k : Nat) : Option Char := st.input[st.pos + k]?

/-- Mirrors `enum ParserState`. -/
inductive PState where
  | normal
  | inString (q : Char)
  | inLineComment
  | inBlockComment
deriving Repr, DecidableEq

/-- Mirrors `Transpiler::current_state`. -/
def Dl.currentState (st : Dl) : PState :=
  if st.input.length ≤ st.pos then .normal
  else if st.currentChar = some '/' then
    if st.peek 1 = some '/' then .inLineComment
    else if st.peek 1 = some '*' then .inBlockComment
    else .normal
  else if st.currentChar = some '"' ∨ st.currentChar = some squote ∨ st.currentChar = some btick then
    .inString ((st.currentChar).getD ' ')
  else .normal

def isWordChar (c : Char) : Bool := c.isAlphanum || c = '_' || c = '$'

/-- Mirrors `Transpiler::is_word_boundary_at`. -/
def Dl.isWordBoundaryAt (st : Dl) (p : Nat) : Bool :=
  match st.input[p]? with
  | some c => ! isWordChar c
  | none => true

/-- Mirrors `Transpiler::has_valid_word_prefix` (the guard that the
character before the current position is not a word character). -/
def Dl.hasValidWordFront (st : Dl) : Bool :=
  if st.pos = 0 then true
  else
    match st.input[st.pos - 1]? with
    | some c => ! isWordChar c
    | none => true

/-- Mirrors `Transpiler::is_optional_chaining_context`: look backwards
past whitespace; valid when an alphanumeric, `_`, `)` or `]` precedes. -/
def Dl.isOptionalChainingContext (st : Dl) : Bool :=
  match (st.input.take st.pos).reverse.dropWhile (·.isWhitespace) with
  | [] => false
  | c :: _ => c.isAlphanum || c = '_' || c = ')' || c = ']'

/-- Backward scan of `Transpiler::find_object_start`, iterating the
emitted output in reverse (`rev` is the reversed output, `idx` the index
of its head in the original output). -/
def findObjStartGo : List Char → Nat → Bool → Nat → Nat
  | [], _, _, _ => 0
  | c :: rest, idx, started, depth =>
    if started then
      if c = ')' ∨ c = ']' then findObjStartGo rest (idx - 1) true (depth + 1)
      else if c = '(' ∨ c = '[' then
        if 0 < depth then
          if depth = 1 then idx + 1
          else findObjStartGo rest (idx - 1) true (depth - 1)
        else idx + 1
      else
        if 0 < depth then findObjStartGo rest (idx - 1) true depth
        else if c.isAlphanum ∨ c = '_' then findObjStartGo rest (idx - 1) true depth
        else idx + 1
    else
      if c.isWhitespace then findObjStartGo rest (idx - 1) false depth
      else if c = ')' ∨ c = ']' then findObjStartGo rest (idx - 1) true 1
      else if c.isAlphanum ∨ c = '_' then findObjStartGo rest (idx - 1) true depth
      else idx + 1

/-- Mirrors `Transpiler::find_object_start`. -/
def find_object_start (out : List Char) : Nat :=
  findObjStartGo out.reverse (out.length - 1) false 0

/-- Backward scan of `Transpiler::find_operator_left_operand`. -/
def findOpLeftGo : List Char → Nat → Nat → Nat → Nat
  | [], _, _, _ => 0
  | c :: rest, idx, pd, bd =>
    if c = ')' then findOpLeftGo rest (idx - 1) (pd + 1) bd
    else if c = '(' then
      if 0 < pd then findOpLeftGo rest (idx - 1) (pd - 1) bd else idx + 1
    else if c = ']' then findOpLeftGo rest (idx - 1) pd (bd + 1)
    else if c = '[' then
      if 0 < bd then findOpLeftGo rest (idx - 1) pd (bd - 1) else idx + 1
    else if (c = ';' ∨ c = ',' ∨ c = '=' ∨ c = '{' ∨ c = '}') ∧ pd = 0 ∧ bd = 0 then idx + 1
    else findOpLeftGo rest (idx - 1) pd bd

/-- Mirrors `Transpiler::find_operator_left_operand`. -/
def find_operator_left_operand (out : List Char) : Nat :=
  findOpLeftGo out.reverse (out.length - 1) 0 0

def trimStartL (l : List Char) : List Char := l.dropWhile (·.isWhitespace)

def trimEndL (l : List Char) : List Char := (l.reverse.dropWhile (·.isWhitespace)).reverse

def trimL (l : List Char) : List Char := trimEndL (trimStartL l)

/-- `rest.starts_with(|c| c.is_whitespace() || c == '(' || c == '{')`. -/
def kwRestOk : List Char → Bool
  | [] => false
  | c :: _ => c.isWhitespace || c = '(' || c = '{'

/-- One round of the keyword-extraction `for` loop in
`transform_optional_chaining`: try each keyword in order. -/
def tryKwList : List (List Char) → List Char → Option (List Char × List Char)
  | [], _ => none
  | kw :: kws, obj =>
    if kw.isPrefixOf obj ∧ kwRestOk (obj.drop kw.length) then
      some (kw, trimStartL (obj.drop kw.length))
    else tryKwList kws obj

def dlKeywords : List (List Char) :=
  [ "return".data, "throw".data, "await".data, "yield".data ]

/-- The `loop { ... }` that peels leading keywords off the captured
object expression (fuelled; each successful round shortens `obj`). -/
def stripKeywordsGo : Nat → List Char → List (List Char) → List (List Char) × List Char
  | 0, obj, acc => (acc, obj)
  | fuel + 1, obj, acc =>
    match tryKwList dlKeywords obj with
    | some (kw, rest) => stripKeywordsGo fuel rest (acc ++ [kw])
    | none => (acc, obj)

/-- The bracket/paren copy loops inside `transform_optional_chaining`:
copy characters, tracking depth, until depth returns to zero or the
input ends.  Returns the copied characters and the count consumed. -/
def copyBalanced (openC closeC : Char) : List Char → Nat → List Char × Nat
  | [], _ => ([], 0)
  | c :: rest, depth =>
    let d2 : Nat := if c = openC then depth + 1 else if c = closeC then depth - 1 else depth
    if d2 = 0 then ([c], 1)
    else
      let r := copyBalanced openC closeC rest d2
      (c :: r.1, r.2 + 1)

/-- The right-operand copy loop of `transform_nullish_coalescing`: copy
until a terminator (at which point a closing paren is emitted and the
terminator left unconsumed) or end of input (no closing paren). -/
def nullishRightCopy : List Char → List Char × Nat
  | [] => ([], 0)
  | c :: rest =>
    if c = ';' ∨ c = ',' ∨ c = ')' ∨ c = '}' ∨ c = ']' ∨ c = '\n' then ([')'], 0)
    else
      let r := nullishRightCopy rest
      (c :: r.1, r.2 + 1)

/-- Mirrors `Transpiler::transform_optional_chaining`. -/
def transform_optional_chaining (st : Dl) : Dl :=
  let objStart := find_object_start st.output
  let rawSegment := st.output.drop objStart
  let obj1 := trimEndL rawSegment
  let leadingWs := obj1.takeWhile (·.isWhitespace)
  let obj2 := trimStartL obj1
  let out0 := st.output.take objStart
  let kr := stripKeywordsGo (obj2.length + 1) obj2 []
  let obj := kr.2
  let out1 := out0 ++ leadingWs ++ kr.1.foldl (fun a kw => a ++ kw ++ [' ']) []
  let pos1 := st.pos + 2
  match st.input[pos1]? with
  | some '[' =>
    let r := copyBalanced '[' ']' (st.input.drop (pos1 + 1)) 1
    { st with
      output := out1 ++ ['('] ++ obj ++ " != null ? ".data ++ obj ++ ['['] ++ r.1 ++ " : undefined)".data
      pos := pos1 + 1 + r.2 }
  | some '(' =>
    let r := copyBalanced '(' ')' (st.input.drop (pos1 + 1)) 1
    { st with
      output := out1 ++ ['('] ++ obj ++ " != null ? ".data ++ obj ++ ['('] ++ r.1 ++ " : undefined)".data
      pos := pos1 + 1 + r.2 }
  | _ =>
    let propChars := (st.input.drop pos1).takeWhile (fun c => c.isAlphanum || c = '_')
    { st with
      output := out1 ++ ['('] ++ obj ++ " != null ? ".data ++ obj ++ ['.'] ++ propChars ++ " : undefined)".data
      pos := pos1 + propChars.length }

/-- Mirrors `Transpiler::transform_nullish_coalescing`. -/
def transform_nullish_coalescing (st : Dl) : Dl :=
  let leftEnd := find_operator_left_operand st.output
  let left := trimL (st.output.drop leftEnd)
  let out0 := st.output.take leftEnd
  let pos1 := st.pos + 2
  let r := nullishRightCopy (st.input.drop pos1)
  { st with
    output := out0 ++ ['('] ++ left ++ " != null ? ".data ++ left ++ " : ".data ++ r.1
    pos := pos1 + r.2 }

/-- Mirrors `Transpiler::handle_normal`. -/
def handle_normal (st : Dl) : Dl :=
  let ch := st.currentChar
  if st.hasValidWordFront ∧ ch = some 'c' ∧ st.peek 1 = some 'o' ∧ st.peek 2 = some 'n' ∧
      st.peek 3 = some 's' ∧ st.peek 4 = some 't' ∧ st.isWordBoundaryAt (st.pos + 5) then
    { st with output := st.output ++ "var".data, pos := st.pos + 5 }
  else if st.hasValidWordFront ∧ ch = some 'l' ∧ st.peek 1 = some 'e' ∧ st.peek 2 = some 't' ∧
      st.isWordBoundaryAt (st.pos + 3) then
    { st with output := st.output ++ "var".data, pos := st.pos + 3 }
  else if ch = some '?' ∧ st.peek 1 = some '.' ∧ st.isOptionalChainingContext then
    transform_optional_chaining st
  else if ch = some '?' ∧ st.peek 1 = some '?' then
    transform_nullish_coalescing st
  else
    match ch with
    | some c => { st with output := st.output ++ [c], pos := st.pos + 1 }
    | none => { st with pos := st.pos + 1 }

/-- The copy loop of `Transpiler::handle_line_comment`. -/
def lineCommentCopy : List Char → List Char × Nat
  | [] => ([], 0)
  | c :: rest =>
    if c = '\n' then ([c], 1)
    else
      let r := lineCommentCopy rest
      (c :: r.1, r.2 + 1)

/-- Mirrors `Transpiler::handle_line_comment`. -/
def handle_line_comment (st : Dl) : Dl :=
  let r := lineCommentCopy (st.input.drop st.pos)
  { st with output := st.output ++ r.1, pos := st.pos + r.2 }

/-- The copy loop of `Transpiler::handle_block_comment` (runs while at
least two characters remain, after the opening `/*` was consumed). -/
def blockCommentCopy : List Char → List Char × Nat
  | [] => ([], 0)
  | [_] => ([], 0)
  | c :: next :: rest =>
    if c = '*' ∧ next = '/' then (['*', '/'], 2)
    else
      let r := blockCommentCopy (next :: rest)
      (c :: r.1, r.2 + 1)

/-- Mirrors `Transpiler::handle_block_comment`. -/
def handle_block_comment (st : Dl) : Dl :=
  let st1 : Dl := { st with output := st.output ++ "/*".data, pos := st.pos + 2 }
  let r := blockCommentCopy (st1.input.drop st1.pos)
  { st1 with output := st1.output ++ r.1, pos := st1.pos + r.2 }

/-- The step after the interpolation loop in `handle_string`: when the
brace depth returned to zero, emit the closing brace. -/
def templFinish (r : Dl × Nat) : Dl :=
  if r.2 = 0 then { r.1 with output := r.1.output ++ ['}'] } else r.1

mutual

/-- Mirrors the `while` loop of `Transpiler::transpile` (fuelled). -/
def dlLoop : Nat → Dl → Dl
  | 0, st => st
  | fuel + 1, st =>
    if st.pos < st.input.length then
      match st.currentState with
      | .normal => dlLoop fuel (handle_normal st)
      | .inString q => dlLoop fuel (handleString fuel q st)
      | .inLineComment => dlLoop fuel (handle_line_comment st)
      | .inBlockComment => dlLoop fuel (handle_block_comment st)
    else st

/-- Mirrors `Transpiler::handle_string`: push the opening quote, then run
the string-body loop. -/
def handleString : Nat → Char → Dl → Dl
  | fuel, q, st => stringLoop fuel q { st with output := st.output ++ [q], pos := st.pos + 1 }

/-- The string-body `while` loop of `Transpiler::handle_string`. -/
def stringLoop : Nat → Char → Dl → Dl
  | 0, _, st => st
  | fuel + 1, q, st =>
    if st.pos < st.input.length then
      match st.currentChar with
      | some c =>
        if c = '\\' ∧ (st.peek 1).isSome then
          match st.peek 1 with
          | some n => stringLoop fuel q { st with output := st.output ++ ['\\', n], pos := st.pos + 2 }
          | none => st
        else if c = q then
          { st with output := st.output ++ [q], pos := st.pos + 1 }
        else if q = btick ∧ c = '$' ∧ st.peek 1 = some '{' then
          stringLoop fuel q
            (templFinish (templLoop fuel 1 { st with output := st.output ++ ['$', '{'], pos := st.pos + 2 }))
        else
          stringLoop fuel q { st with output := st.output ++ [c], pos := st.pos + 1 }
      | none => st
    else st

/-- The `${...}` interpolation loop inside `Transpiler::handle_string`
(returns the state and the final brace depth). -/
def templLoop : Nat → Nat → Dl → Dl × Nat
  | 0, depth, st => (st, depth)
  | fuel + 1, depth, st =>
    if 0 < depth ∧ st.pos < st.input.length then
      match st.currentState with
      | .normal =>
        match st.currentChar with
        | some c =>
          if c = '{' then
            templLoop fuel (depth + 1) { st with output := st.output ++ ['{'], pos := st.pos + 1 }
          else if c = '}' then
            let st1 : Dl :=
              if 0 < depth - 1 then { st with output := st.output ++ ['}'], pos := st.pos + 1 }
              else { st with pos := st.pos + 1 }
            templLoop fuel (depth - 1) st1
          else if c = '?' then
            if st.peek 1 = some '.' then
              if st.isOptionalChainingContext then templLoop fuel depth (transform_optional_chaining st)
              else templLoop fuel depth st
            else if st.peek 1 = some '?' then
              templLoop fuel depth (transform_nullish_coalescing st)
            else templLoop fuel depth { st with output := st.output ++ ['?'], pos := st.pos + 1 }
          else templLoop fuel depth { st with output := st.output ++ [c], pos := st.pos + 1 }
        | none => templLoop fuel depth { st with pos := st.pos + 1 }
      | .inString q2 => templLoop fuel depth (handleString fuel q2 st)
      | .inLineComment => templLoop fuel depth (handle_line_comment st)
      | .inBlockComment => templLoop fuel depth (handle_block_comment st)
    else (st, depth)

end

/-- Mirrors `downlevel_for_jsc` (always `Ok` in the source; the fuel
`len + 1` is enough because every loop iteration consumes at least one
input character). -/
def downlevel_for_jsc (source : String) : String :=
  String.mk (dlLoop (source.data.length + 1) { input := source.data, output := [], pos := 0 }).output

/-! ## JSX parser / TypeScript stripper (jsx_parser.rs) -/

/-- Mirrors `struct ParseContext`. -/
structure ParseContext where
  source : List Char
  pos : Nat
  is_typescript : Bool
deriving Repr, DecidableEq

def ParseContext.currentChar (ctx : ParseContext) : Option Char := ctx.source[ctx.pos]?

def ParseContext.peek (ctx : ParseContext) (k : Nat) : Option Char := ctx.source[ctx.pos + k]?

def ParseContext.advance (ctx : ParseContext) : ParseContext := { ctx with pos := ctx.pos + 1 }

/-- An `advance`-while loop: move `pos` past the longest run of
characters satisfying `p` (the common inline loop shape in the source). -/
def ParseContext.advWhile (ctx : ParseContext) (p : Char → Bool) : ParseContext :=
  { ctx with pos := ctx.pos + ((ctx.source.drop ctx.pos).takeWhile p).length }

/-- Mirrors `ParseContext::skip_whitespace`. -/
def ParseContext.skip_whitespace (ctx : ParseContext) : ParseContext :=
  ctx.advWhile (·.isWhitespace)

/-- Mirrors `ParseContext::consume`. -/
def ParseContext.consume (ctx : ParseContext) (expected : Char) : Except String ParseContext :=
  if ctx.currentChar = some expected then .ok ctx.advance
  else .error ("Expected \x27" ++ expected.toString ++ "\x27 at position " ++ toString ctx.pos)

/-- Mirrors `ParseContext::slice`. -/
def ParseContext.slice (ctx : ParseContext) (s e : Nat) : List Char :=
  (ctx.source.drop s).take (e - s)

/-- Tag-name characters (alphanumeric, `-`, `_`, `.`). -/
def tagNameChar (c : Char) : Bool := c.isAlphanum || c = '-' || c = '_' || c = '.'

/-- Identifier-word characters (alphanumeric or `_`). -/
def wordChar (c : Char) : Bool := c.isAlphanum || c = '_'

/-- The preceding-character test inside `is_jsx_start` (lines 785-791):
true when `pos > 0` and the character at `pos - 1` is alphanumeric,
`_`, or `$`. -/
def prevWordLike (ctx : ParseContext) : Bool :=
  if ctx.pos = 0 then false
  else
    match ctx.source[ctx.pos - 1]? with
    | some prev => prev.isAlphanum || prev = '_' || prev = '$'
    | none => false

/-- Mirrors `is_jsx_start`. -/
def is_jsx_start (ctx : ParseContext) : Bool :=
  if ctx.currentChar ≠ some '<' then false
  else if ctx.peek 1 = some '/' then true
  else if prevWordLike ctx then false
  else
    match ctx.peek 1 with
    | some ch =>
      if ch.isAlpha then
        let i := 1 + ((ctx.source.drop (ctx.pos + 1)).takeWhile tagNameChar).length
        let j := i + ((ctx.source.drop (ctx.pos + i)).takeWhile (·.isWhitespace)).length
        match ctx.peek j with
        | some '>' => if ctx.peek (j + 1) = some '(' then false else true
        | some '/' => true
        | some c2 => c2.isAlpha
        | none => false
      else if ch = '>' ∨ ch = '/' then true
      else false
    | none => false

/-- Mirrors `is_custom_component`. -/
def is_custom_component (tag : List Char) : Bool :=
  match tag with
  | [] => false
  | c :: _ => c.isUpper || tag.contains '.'

/-- Per-character form of `escape_string` (the source's chain of
single-character `replace` calls never rewrites a character produced by
an earlier replacement, so it equals this single map). -/
def escChar (c : Char) : List Char :=
  if c = '\\' then ['\\', '\\']
  else if c = '"' then ['\\', '"']
  else if c = '\n' then ['\\', 'n']
  else if c = '\r' then ['\\', 'r']
  else if c = '\t' then ['\\', 't']
  else [c]

/-- Mirrors `escape_string`. -/
def escape_string (l : List Char) : List Char := l.flatMap escChar

/-- Loop body of `parse_js_expression` (fuelled; `depth` is the i32
bracket depth, which may go negative). -/
def parseJsExprGo : Nat → ParseContext → Char → Bool → Char → Int → ParseContext
  | 0, ctx, _, _, _, _ => ctx
  | fuel + 1, ctx, term, inStr, strChar, depth =>
    match ctx.currentChar with
    | none => ctx
    | some ch =>
      if inStr then
        if ch = '\\' then parseJsExprGo fuel ctx.advance.advance term true strChar depth
        else if ch = strChar then parseJsExprGo fuel ctx.advance term false strChar depth
        else parseJsExprGo fuel ctx.advance term true strChar depth
      else if ch = '"' ∨ ch = squote ∨ ch = btick then
        parseJsExprGo fuel ctx.advance term true ch depth
      else if ch = '{' ∨ ch = '[' ∨ ch = '(' then
        parseJsExprGo fuel ctx.advance term false strChar (depth + 1)
      else if ch = '}' ∨ ch = ']' ∨ ch = ')' then
        if depth = 0 ∧ ch = term then ctx
        else parseJsExprGo fuel ctx.advance term false strChar (depth - 1)
      else if depth = 0 ∧ ch = term then ctx
      else parseJsExprGo fuel ctx.advance term false strChar depth

/-- Mirrors `parse_js_expression` (always `Ok` in the source). -/
def parse_js_expression (ctx : ParseContext) (term : Char) : List Char × ParseContext :=
  let start := ctx.pos
  let ctx2 := parseJsExprGo (ctx.source.length + 2) ctx term false ' ' 0
  (ctx.slice start ctx2.pos, ctx2)

/-- Loop body of `skip_type_at_pos` (fuelled). -/
def skipTypeGo : Nat → ParseContext → Nat → Bool → ParseContext
  | 0, ctx, _, _ => ctx
  | fuel + 1, ctx, depth, seen =>
    match ctx.currentChar with
    | none => ctx
    | some ch =>
      if depth = 0 ∧ (ch = ',' ∨ ch = ';' ∨ ch = '=' ∨ (seen ∧ ch = '{')) then ctx
      else if ch = '<' ∨ ch = '{' ∨ ch = '[' ∨ ch = '(' then
        skipTypeGo fuel ctx.advance (depth + 1) true
      else if ch = '>' ∨ ch = '}' ∨ ch = ']' ∨ ch = ')' then
        if depth = 0 then ctx
        else skipTypeGo fuel ctx.advance (depth - 1) true
      else skipTypeGo fuel ctx.advance depth (seen || ! ch.isWhitespace)

/-- Mirrors `skip_type_at_pos`. -/
def skip_type_at_pos (ctx : ParseContext) : ParseContext :=
  skipTypeGo (ctx.source.length + 1) ctx 0 false

/-- String-copy loop of `strip_typescript` (returns copied characters
and count consumed, starting just after the opening quote). -/
def stripStrCopy (quote : Char) : List Char → List Char × Nat
  | [] => ([], 0)
  | c :: rest =>
    if c = '\\' then
      match rest with
      | [] => ([c], 1)
      | c2 :: rest2 =>
        let r := stripStrCopy quote rest2
        (c :: c2 :: r.1, r.2 + 2)
    else if c = quote then ([c], 1)
    else
      let r := stripStrCopy quote rest
      (c :: r.1, r.2 + 1)

/-- Block-comment copy loop of `strip_typescript` (starting at the
first `/`; copies through the closing `*/` or to end of input). -/
def stripBlockCopy : List Char → List Char × Nat
  | [] => ([], 0)
  | c :: rest =>
    if c = '*' ∧ rest.head? = some '/' then (['*', '/'], 2)
    else
      let r := stripBlockCopy rest
      (c :: r.1, r.2 + 1)

def isBuiltinType (w : List Char) : Bool :=
  w = "string".data ∨ w = "number".data ∨ w = "boolean".data ∨ w = "any".data ∨
    w = "void".data ∨ w = "unknown".data ∨ w = "never".data ∨ w = "object".data

/-- Main loop of `strip_typescript` (fuelled). -/
def stripLoop : Nat → ParseContext → List Char → List Char
  | 0, _, output => output
  | fuel + 1, ctx, output =>
    if ctx.source.length ≤ ctx.pos then output
    else
      match ctx.currentChar with
      | none => output
      | some ch =>
        if ch = '"' ∨ ch = squote ∨ ch = btick then
          let r := stripStrCopy ch (ctx.source.drop (ctx.pos + 1))
          stripLoop fuel { ctx with pos := ctx.pos + 1 + r.2 } (output ++ [ch] ++ r.1)
        else if ch = '/' ∧ ctx.peek 1 = some '/' then
          let r := lineCommentCopy (ctx.source.drop ctx.pos)
          stripLoop fuel { ctx with pos := ctx.pos + r.2 } (output ++ r.1)
        else if ch = '/' ∧ ctx.peek 1 = some '*' then
          let r := stripBlockCopy (ctx.source.drop ctx.pos)
          stripLoop fuel { ctx with pos := ctx.pos + r.2 } (output ++ r.1)
        else if ch.isAlpha then
          let start := ctx.pos
          let ctx1 := ctx.advWhile wordChar
          let word := ctx.slice start ctx1.pos
          if word = "interface".data ∨ word = "enum".data then
            let ctx2 := (ctx1.skip_whitespace.advWhile wordChar).skip_whitespace
            if ctx2.currentChar = some '{' then
              let pr := parse_js_expression ctx2.advance '}'
              let ctx3 := match pr.2.consume '}' with
                | .ok c => c
                | .error _ => pr.2
              stripLoop fuel ctx3 output
            else stripLoop fuel ctx2 output
          else if word = "type".data then
            let ctx2 := ctx1.skip_whitespace
            let decl :=
              match ctx2.currentChar with
              | some c =>
                if c.isAlpha then
                  let ctx3 := (ctx2.advWhile wordChar).skip_whitespace
                  (ctx3.currentChar == some '=', ctx3)
                else (false, ctx2)
              | none => (false, ctx2)
            if decl.1 then
              let pr := parse_js_expression decl.2 ';'
              let ctx3 := match pr.2.consume ';' with
                | .ok c => c
                | .error _ => pr.2
              stripLoop fuel ctx3 output
            else stripLoop fuel ctx1 (output ++ word)
          else if word = "as".data then
            let ctx2 := ctx1.skip_whitespace
            match ctx2.currentChar with
            | some c =>
              if c.isAlpha ∨ c = '{' ∨ c = '[' then
                stripLoop fuel (skip_type_at_pos ctx2) (output ++ [' '])
              else stripLoop fuel ctx1 (output ++ word)
            | none => stripLoop fuel ctx1 (output ++ word)
          else if word = "public".data ∨ word = "private".data ∨ word = "protected".data ∨
              word = "readonly".data ∨ word = "abstract".data then
            let ctx2 := ctx1.skip_whitespace
            match ctx2.currentChar with
            | some c =>
              if c.isAlpha then stripLoop fuel ctx2 output
              else stripLoop fuel ctx1 (output ++ word)
            | none => stripLoop fuel ctx1 (output ++ word)
          else stripLoop fuel ctx1 (output ++ word)
        else if ch = ':' then
          let savedPos := ctx.pos
          let ctx1 := ctx.advance.skip_whitespace
          match ctx1.currentChar with
          | some _ =>
            let typeStart := ctx1.pos
            let ctx2 := ctx1.advWhile wordChar
            let word := ctx1.slice typeStart ctx2.pos
            let isType := isBuiltinType word ∨ (word ≠ [] ∧ (word.headD ' ').isUpper)
            if isType then
              stripLoop fuel (skip_type_at_pos { ctx2 with pos := typeStart }) (output ++ [' '])
            else stripLoop fuel { ctx with pos := savedPos + 1 } (output ++ [ch])
          | none => stripLoop fuel { ctx with pos := savedPos + 1 } (output ++ [ch])
        else if ch = '<' ∧ ! is_jsx_start ctx then
          let ctx1 := skip_type_at_pos ctx.advance
          if ctx1.currentChar = some '>' then
            stripLoop fuel ctx1.advance (output ++ [' '])
          else stripLoop fuel ctx.advance (output ++ [ch])
        else if ch = '!' ∧
            ((ctx.peek 1).any fun c => !c.isAlphanum && c != '=' && c != '!' && !c.isWhitespace) then
          stripLoop fuel ctx.advance output
        else
          stripLoop fuel ctx.advance (output ++ [ch])

/-- Mirrors `strip_typescript` (always `Ok` in the source). -/
def strip_typescript (source : List Char) : List Char :=
  stripLoop (2 * source.length + 16) { source := source, pos := 0, is_typescript := true } []

/-- String-skip loop used by `check_for_typescript_syntax` and
`skip_jsx_element` (read a character, advance, skip one more after a
backslash, stop after the closing quote): returns the count consumed. -/
def qSkipCount (quote : Char) : List Char → Nat
  | [] => 0
  | c :: rest =>
    if c = '\\' then
      match rest with
      | [] => 1
      | _ :: rest2 => qSkipCount quote rest2 + 2
    else if c = quote then 1
    else qSkipCount quote rest + 1

/-- Brace-balanced skip with string awareness (the `{expr}` skip loops
in `skip_jsx_element` and `skip_jsx_children`): count consumed,
starting just after the opening `{`, with `depth` open braces. -/
def braceSkipCount : Nat → List Char → Nat → Nat
  | 0, _, _ => 0
  | _ + 1, [], _ => 0
  | fuel + 1, c :: rest, depth =>
    if c = '{' then braceSkipCount fuel rest (depth + 1) + 1
    else if c = '}' then
      if depth = 1 then 1
      else braceSkipCount fuel rest (depth - 1) + 1
    else if c = '"' ∨ c = squote ∨ c = btick then
      let n := qSkipCount c rest
      braceSkipCount fuel (rest.drop n) depth + (n + 1)
    else braceSkipCount fuel rest depth + 1

/-- The backward tag-name recovery scan in `skip_jsx_element` (walk
back from just before the consumed `>` to the nearest `<`, then read
the tag name forward). -/
def backToLt (src : List Char) : Nat → Nat
  | 0 => 0
  | p + 1 => if src[p + 1]? = some '<' then p + 1 else backToLt src p

def skipBackTagName (ctx : ParseContext) : List Char :=
  let tagPos := backToLt ctx.source (ctx.pos - 1)
  if tagPos < ctx.pos ∧ ctx.source[tagPos]? = some '<' then
    (ctx.source.drop (tagPos + 1)).takeWhile tagNameChar
  else []

mutual

/-- Mirrors `skip_jsx_element` (fuelled). -/
def skip_jsx_element : Nat → ParseContext → Except String ParseContext
  | 0, _ => .error "FUEL"
  | fuel + 1, ctx =>
    match ctx.consume '<' with
    | .error e => .error e
    | .ok ctx1 =>
      if ctx1.currentChar = some '>' then
        skip_jsx_children fuel ctx1.advance []
      else
        let ctx2 := ctx1.advWhile tagNameChar
        match skipPropsLoop fuel ctx2 with
        | .error e => .error e
        | .ok ctx3 =>
          if ctx3.currentChar = some '/' then
            match ctx3.advance.consume '>' with
            | .error e => .error e
            | .ok ctx4 => .ok ctx4
          else
            match ctx3.consume '>' with
            | .error e => .error e
            | .ok ctx4 =>
              let tagName := skipBackTagName ctx4
              skip_jsx_children fuel ctx4 tagName

/-- The attribute-skip loop inside `skip_jsx_element`. -/
def skipPropsLoop : Nat → ParseContext → Except String ParseContext
  | 0, _ => .error "FUEL"
  | fuel + 1, ctx =>
    if ctx.currentChar ≠ some '>' ∧ ctx.currentChar ≠ some '/' then
      let ctx1 := ctx.skip_whitespace
      if ctx1.currentChar = some '>' ∨ ctx1.currentChar = some '/' then .ok ctx1
      else
        let ctx2 := ctx1.advWhile (fun c => c.isAlphanum || c = '-' || c = '_' || c = ':')
        let ctx3 := ctx2.skip_whitespace
        if ctx3.currentChar = some '=' then
          let ctx4 := ctx3.advance.skip_whitespace
          match ctx4.currentChar with
          | some q =>
            if q = '"' ∨ q = squote ∨ q = btick then
              let n := qSkipCount q (ctx4.source.drop (ctx4.pos + 1))
              skipPropsLoop fuel { ctx4 with pos := ctx4.pos + 1 + n }
            else if q = '{' then
              let n := braceSkipCount (ctx4.source.length + 1) (ctx4.source.drop (ctx4.pos + 1)) 1
              skipPropsLoop fuel { ctx4 with pos := ctx4.pos + 1 + n }
            else skipPropsLoop fuel ctx4
          | none => skipPropsLoop fuel ctx4
        else skipPropsLoop fuel ctx3
    else .ok ctx

/-- Mirrors `skip_jsx_children` (the parent tag is ignored there). -/
def skip_jsx_children : Nat → ParseContext → List Char → Except String ParseContext
  | 0, _, _ => .error "FUEL"
  | fuel + 1, ctx, parentTag =>
    let ctx1 := ctx.skip_whitespace
    if ctx1.currentChar = some '<' ∧ ctx1.peek 1 = some '/' then
      let ctx2 := (ctx1.advance.advance.advWhile tagNameChar).skip_whitespace
      match ctx2.consume '>' with
      | .error e => .error e
      | .ok ctx3 => .ok ctx3
    else if ctx1.currentChar = some '<' then
      match skip_jsx_element fuel ctx1 with
      | .error e => .error e
      | .ok ctx2 => skip_jsx_children fuel ctx2 parentTag
    else if ctx1.currentChar = some '{' then
      let n := braceSkipCount (ctx1.source.length + 1) (ctx1.source.drop (ctx1.pos + 1)) 1
      skip_jsx_children fuel { ctx1 with pos := ctx1.pos + 1 + n } parentTag
    else
      let ctx2 := ctx1.advWhile (fun c => c ≠ '<' ∧ c ≠ '{')
      if ctx1.source.length ≤ ctx2.pos then .ok ctx2
      else skip_jsx_children fuel ctx2 parentTag

end

/-- Main loop of `check_for_typescript_syntax` (fuelled). -/
def checkLoop : Nat → ParseContext → Except String Unit
  | 0, _ => .error "FUEL"
  | fuel + 1, ctx =>
    if ctx.source.length ≤ ctx.pos then .ok ()
    else
      match ctx.currentChar with
      | none => .ok ()
      | some ch =>
        if ch = '"' ∨ ch = squote ∨ ch = btick then
          checkLoop fuel { ctx with pos := ctx.pos + 1 + qSkipCount ch (ctx.source.drop (ctx.pos + 1)) }
        else if ch = '/' ∧ ctx.peek 1 = some '/' then
          checkLoop fuel { ctx with pos := ctx.pos + (lineCommentCopy (ctx.source.drop ctx.pos)).2 }
        else if ch = '/' ∧ ctx.peek 1 = some '*' then
          checkLoop fuel { ctx with pos := ctx.pos + (stripBlockCopy (ctx.source.drop ctx.pos)).2 }
        else if ch = '<' ∧ is_jsx_start ctx then
          match skip_jsx_element fuel ctx with
          | .error e => .error e
          | .ok ctx1 => checkLoop fuel ctx1
        else if ch.isAlpha then
          let start := ctx.pos
          let ctx1 := ctx.advWhile wordChar
          let word := ctx.slice start ctx1.pos
          let validLead :=
            if start = 0 then true
            else
              match ctx.source[start - 1]? with
              | some c => ! (c.isAlphanum || c = '_')
              | none => true
          if ! validLead then checkLoop fuel ctx1
          else if word = "type".data then
            let ctx2 := ctx1.skip_whitespace
            let aliasLike :=
              match ctx2.currentChar with
              | some c =>
                if c.isAlpha then ((ctx2.advWhile wordChar).skip_whitespace).currentChar == some '='
                else false
              | none => false
            if aliasLike then
              .error ("Unexpected TypeScript syntax \x27" ++ String.mk word ++ "\x27 at position " ++ toString start)
            else checkLoop fuel ctx1
          else if word = "interface".data ∨ word = "enum".data ∨ word = "public".data ∨
              word = "private".data ∨ word = "protected".data ∨ word = "readonly".data then
            .error ("Unexpected TypeScript syntax \x27" ++ String.mk word ++ "\x27 at position " ++ toString start)
          else checkLoop fuel ctx1
        else if ch = ':' then
          let savedPos := ctx.pos
          let ctx1 := ctx.advance.skip_whitespace
          match ctx1.currentChar with
          | some _ =>
            let ctx2 := ctx1.advWhile wordChar
            let word := ctx1.slice ctx1.pos ctx2.pos
            let nextNonWs := ((ctx2.source.drop ctx2.pos).dropWhile (·.isWhitespace)).head?
            let typeTerminated :=
              nextNonWs = some ',' ∨ nextNonWs = some ';' ∨ nextNonWs = some '=' ∨
                nextNonWs = some ')' ∨ nextNonWs = some '>' ∨ nextNonWs = some '{' ∨
                nextNonWs = some '}' ∨ nextNonWs = some '|' ∨ nextNonWs = some '&'
            if (isBuiltinType word ∨ (word ≠ [] ∧ (word.headD ' ').isUpper)) ∧ typeTerminated then
              .error ("Unexpected TypeScript type annotation at position " ++ toString savedPos)
            else checkLoop fuel { ctx with pos := savedPos + 1 }
          | none => checkLoop fuel { ctx with pos := savedPos + 1 }
        else if ch = '<' ∧ ! is_jsx_start ctx then
          let savedPos := ctx.pos
          let ctx1 := ctx.advance.advWhile wordChar
          let word := ctx.slice (savedPos + 1) ctx1.pos
          if word ≠ [] ∧ ctx1.currentChar = some '>' then
            .error ("Unexpected TypeScript generic at position " ++ toString savedPos)
          else checkLoop fuel { ctx with pos := savedPos + 1 }
        else checkLoop fuel ctx.advance

/-- Mirrors `check_for_typescript_syntax`. -/
def check_for_typescript_syntax (source : List Char) : Except String Unit :=
  checkLoop (2 * source.length + 16) { source := source, pos := 0, is_typescript := false }

/-- Loop of `parse_string_literal`'s body scan. -/
def strLitGo : Nat → ParseContext → Char → ParseContext
  | 0, ctx, _ => ctx
  | fuel + 1, ctx, quote =>
    match ctx.currentChar with
    | none => ctx
    | some ch =>
      if ch = quote then ctx
      else if ch = '\\' then strLitGo fuel ctx.advance.advance quote
      else strLitGo fuel ctx.advance quote

/-- Mirrors `parse_string_literal`. -/
def parse_string_literal (ctx : ParseContext) : Except String (List Char × ParseContext) :=
  let quote := (ctx.currentChar).getD ' '
  let ctx1 := ctx.advance
  let start := ctx1.pos
  let ctx2 := strLitGo (ctx.source.length + 2) ctx1 quote
  let content := ctx1.slice start ctx2.pos
  match ctx2.consume quote with
  | .error e => .error e
  | .ok ctx3 => .ok (['"'] ++ escape_string content ++ ['"'], ctx3)

/-- `Vec::join(", ")`. -/
def joinSep (sep : List Char) : List (List Char) → List Char
  | [] => []
  | [x] => x
  | x :: xs => x ++ sep ++ joinSep sep xs

/-- `format!("__hook_jsx_runtime.jsx({}, {})", tag_value, props)`. -/
def jsxCall (tagValue props : List Char) : List Char :=
  "__hook_jsx_runtime.jsx(".data ++ tagValue ++ ", ".data ++ props ++ [')']

def trimStartMatches (c : Char) (l : List Char) : List Char := l.dropWhile (· = c)

def trimEndMatches (c : Char) (l : List Char) : List Char := (l.reverse.dropWhile (· = c)).reverse

/-- The block-comment copy loop of `transpile_jsx`'s main loop. -/
def jsxBlockCopy : List Char → List Char × Nat
  | [] => ([], 0)
  | c :: rest =>
    if c = '*' ∧ rest.head? = some '/' then (['*', '/'], 2)
    else
      let r := jsxBlockCopy rest
      (c :: r.1, r.2 + 1)

mutual

/-- Mirrors `transpile_jsx` (fuelled; the recursion re-enters for
`{expr}` prop values, `{expr}` children and template interpolations). -/
def transpileJsxF : Nat → List Char → Bool → Except String (List Char)
  | 0, _, _ => .error "FUEL"
  | fuel + 1, src, isTs =>
    if isTs then
      transpileLoop fuel { source := strip_typescript src, pos := 0, is_typescript := true } []
    else
      match check_for_typescript_syntax src with
      | .error e => .error e
      | .ok _ => transpileLoop fuel { source := src, pos := 0, is_typescript := false } []

/-- The main `while` loop of `transpile_jsx`. -/
def transpileLoop : Nat → ParseContext → List Char → Except String (List Char)
  | 0, _, _ => .error "FUEL"
  | fuel + 1, ctx, output =>
    if ctx.pos < ctx.source.length then
      match ctx.currentChar with
      | none => .ok output
      | some ch =>
        if ch = '"' ∨ ch = squote ∨ ch = btick then
          match strCopyLoop fuel ch ctx.advance (output ++ [ch]) with
          | .error e => .error e
          | .ok r => transpileLoop fuel r.1 r.2
        else if ch = '/' ∧ ctx.peek 1 = some '/' then
          let r := lineCommentCopy (ctx.source.drop (ctx.pos + 2))
          transpileLoop fuel { ctx with pos := ctx.pos + 2 + r.2 } (output ++ "//".data ++ r.1)
        else if ch = '/' ∧ ctx.peek 1 = some '*' then
          let r := jsxBlockCopy (ctx.source.drop (ctx.pos + 2))
          transpileLoop fuel { ctx with pos := ctx.pos + 2 + r.2 } (output ++ "/*".data ++ r.1)
        else if ch = '<' ∧ is_jsx_start ctx then
          match parseJsxElement fuel ctx with
          | .error e => .error e
          | .ok jr => transpileLoop fuel jr.2 (output ++ jr.1)
        else transpileLoop fuel ctx.advance (output ++ [ch])
    else .ok output

/-- The string-copy loop of `transpile_jsx`'s main loop (template
interpolations re-enter the whole transpiler). -/
def strCopyLoop : Nat → Char → ParseContext → List Char → Except String (ParseContext × List Char)
  | 0, _, _, _ => .error "FUEL"
  | fuel + 1, quote, ctx, output =>
    match ctx.currentChar with
    | none => .ok (ctx, output)
    | some c =>
      if c = '\\' then
        match ctx.peek 1 with
        | some n => strCopyLoop fuel quote ctx.advance.advance (output ++ [c, n])
        | none => strCopyLoop fuel quote ctx.advance (output ++ [c])
      else if c = quote then .ok (ctx.advance, output ++ [c])
      else if quote = btick ∧ c = '$' ∧ ctx.peek 1 = some '{' then
        let pr := parse_js_expression ctx.advance.advance '}'
        match pr.2.consume '}' with
        | .error e => .error e
        | .ok ctx2 =>
          match transpileJsxF fuel pr.1 ctx.is_typescript with
          | .error e => .error e
          | .ok t => strCopyLoop fuel quote ctx2 (output ++ [c, '{'] ++ t ++ ['}'])
      else strCopyLoop fuel quote ctx.advance (output ++ [c])

/-- Mirrors `parse_jsx_element` (the props string is composed exactly
as `parse_props` composes it: `"{}"` when empty, otherwise
`"{ <props joined by comma> }"`). -/
def parseJsxElement : Nat → ParseContext → Except String (List Char × ParseContext)
  | 0, _ => .error "FUEL"
  | fuel + 1, ctx =>
    match ctx.consume '<' with
    | .error e => .error e
    | .ok ctx1 =>
      if ctx1.currentChar = some '>' then parseFragment fuel ctx1.advance
      else if ctx1.currentChar = some '/' then
        .error ("Unexpected closing tag at position " ++ toString ctx1.pos)
      else
        let tagStart := ctx1.pos
        let ctx2 := ctx1.advWhile tagNameChar
        let tagName := ctx1.slice tagStart ctx2.pos
        let ctx3 := ctx2.skip_whitespace
        match propsLoop fuel ctx3 [] with
        | .error e => .error e
        | .ok pr =>
          let props :=
            if pr.1.isEmpty then "\x7b\x7d".data
            else "\x7b ".data ++ joinSep ", ".data pr.1 ++ " \x7d".data
          let tagValue := if is_custom_component tagName then tagName else ['"'] ++ tagName ++ ['"']
          let ctx4 := pr.2.skip_whitespace
          if ctx4.currentChar = some '/' then
            match ctx4.advance.consume '>' with
            | .error e => .error e
            | .ok ctx5 => .ok (jsxCall tagValue props, ctx5)
          else
            match ctx4.consume '>' with
            | .error e => .error e
            | .ok ctx5 =>
              match childrenLoop fuel ctx5 tagName [] with
              | .error e => .error e
              | .ok cr =>
                if cr.1.isEmpty then .ok (jsxCall tagValue props, cr.2)
                else
                  let joined := joinSep ", ".data cr.1
                  let propsWithChildren :=
                    if props = "\x7b\x7d".data then
                      "\x7b children: [".data ++ joined ++ "] \x7d".data
                    else
                      let inner := trimL (trimEndMatches '}' (trimStartMatches '{' props))
                      if inner.isEmpty then "\x7b children: [".data ++ joined ++ "] \x7d".data
                      else "\x7b ".data ++ inner ++ ", children: [".data ++ joined ++ "] \x7d".data
                  .ok (jsxCall tagValue propsWithChildren, cr.2)

/-- Mirrors `parse_fragment`. -/
def parseFragment : Nat → ParseContext → Except String (List Char × ParseContext)
  | 0, _ => .error "FUEL"
  | fuel + 1, ctx =>
    match childrenLoop fuel ctx [] [] with
    | .error e => .error e
    | .ok cr =>
      if cr.1.isEmpty then
        .ok ("__hook_jsx_runtime.jsx(\x27div\x27, \x7b\x7d)".data, cr.2)
      else
        .ok ("__hook_jsx_runtime.jsx(\x27div\x27, \x7b children: [".data ++
          joinSep ", ".data cr.1 ++ "] \x7d)".data, cr.2)

/-- The prop-collection loop of `parse_props`. -/
def propsLoop : Nat → ParseContext → List (List Char) → Except String (List (List Char) × ParseContext)
  | 0, _, _ => .error "FUEL"
  | fuel + 1, ctx, props =>
    if ctx.currentChar ≠ some '>' ∧ ctx.currentChar ≠ some '/' then
      let ctx1 := ctx.skip_whitespace
      if ctx1.currentChar = some '>' ∨ ctx1.currentChar = some '/' then .ok (props, ctx1)
      else if ctx1.currentChar = some '{' ∧ ctx1.peek 1 = some '.' ∧ ctx1.peek 2 = some '.' then
        let pr := parse_js_expression ctx1.advance.advance.advance.advance '}'
        match pr.2.consume '}' with
        | .error e => .error e
        | .ok ctx2 => propsLoop fuel ctx2 (props ++ ["...".data ++ trimL pr.1])
      else
        let nameStart := ctx1.pos
        let ctx2 := ctx1.advWhile (fun c => c.isAlphanum || c = '-' || c = '_')
        let propName := ctx1.slice nameStart ctx2.pos
        let ctx3 := ctx2.skip_whitespace
        if ctx3.currentChar = some '=' then
          let ctx4 := ctx3.advance.skip_whitespace
          if ctx4.currentChar = some '"' ∨ ctx4.currentChar = some squote then
            match parse_string_literal ctx4 with
            | .error e => .error e
            | .ok vr =>
              propsLoop fuel vr.2.skip_whitespace (props ++ [propName ++ ": ".data ++ vr.1])
          else if ctx4.currentChar = some '{' then
            let pr := parse_js_expression ctx4.advance '}'
            match pr.2.consume '}' with
            | .error e => .error e
            | .ok ctx5 =>
              match transpileJsxF fuel pr.1 ctx.is_typescript with
              | .error e => .error e
              | .ok value =>
                propsLoop fuel ctx5.skip_whitespace (props ++ [propName ++ ": ".data ++ value])
          else .error ("Expected prop value at position " ++ toString ctx4.pos)
        else
          if propName ≠ [] then
            propsLoop fuel ctx3.skip_whitespace (props ++ [propName ++ ": true".data])
          else
            match ctx3.currentChar with
            | some c2 =>
              if c2 ≠ '>' ∧ c2 ≠ '/' then propsLoop fuel ctx3.advance.skip_whitespace props
              else propsLoop fuel ctx3.skip_whitespace props
            | none => propsLoop fuel ctx3.skip_whitespace props
    else .ok (props, ctx)

/-- The child-collection loop of `parse_children`. -/
def childrenLoop : Nat → ParseContext → List Char → List (List Char) →
    Except String (List (List Char) × ParseContext)
  | 0, _, _, _ => .error "FUEL"
  | fuel + 1, ctx, parentTag, children =>
    let ctx1 := ctx.skip_whitespace
    if ctx1.currentChar = some '<' ∧ ctx1.peek 1 = some '/' then
      let closeStart := ctx1.pos + 2
      let ctx2 := ctx1.advance.advance.advWhile tagNameChar
      let closeName := ctx1.slice closeStart ctx2.pos
      let ctx3 := ctx2.skip_whitespace
      match ctx3.consume '>' with
      | .error e => .error e
      | .ok ctx4 =>
        if parentTag ≠ [] ∧ closeName ≠ parentTag then
          .error ("Mismatched closing tag: expected </" ++ String.mk parentTag ++
            ">  but got </" ++ String.mk closeName ++ "> at position " ++ toString ctx4.pos)
        else .ok (children, ctx4)
    else if ctx1.currentChar = some '<' ∧ is_jsx_start ctx1 then
      match parseJsxElement fuel ctx1 with
      | .error e => .error e
      | .ok jr => childrenLoop fuel jr.2 parentTag (children ++ [jr.1])
    else if ctx1.currentChar = some '{' then
      let pr := parse_js_expression ctx1.advance '}'
      match pr.2.consume '}' with
      | .error e => .error e
      | .ok ctx2 =>
        match transpileJsxF fuel pr.1 ctx1.is_typescript with
        | .error e => .error e
        | .ok t => childrenLoop fuel ctx2 parentTag (children ++ [t])
    else
      let textStart := ctx1.pos
      let ctx2 := ctx1.advWhile (fun c => c ≠ '<' ∧ c ≠ '{')
      let text := trimL (ctx1.slice textStart ctx2.pos)
      let children2 :=
        if text ≠ [] then children ++ [['"'] ++ escape_string text ++ ['"']] else children
      if ctx2.pos = textStart then
        if ctx1.source.length ≤ ctx2.pos then
          .error ("Unexpected end of input while parsing children for tag <" ++
            String.mk parentTag ++ ">. Current position: " ++ toString ctx2.pos ++
            ", Total length: " ++ toString ctx1.source.length)
        else .ok (children2, ctx2)
      else childrenLoop fuel ctx2 parentTag children2

end

/-- Mirrors the public `transpile_jsx` entry point; `is_ts` is
`TranspileOptions::is_typescript`, the only option field the
jsx_parser path reads.  The fuel is generous: every loop iteration
advances the cursor and every recursive re-entry is on a strict
substring. -/
def transpile_jsx (source : String) (is_ts : Bool) : Except String String :=
  match transpileJsxF ((source.data.length + 4) * (source.data.length + 4)) source.data is_ts with
  | .ok l => .ok (String.mk l)
  | .error e => .error e

/-- Mirrors `transpile_jsx_simple` / `TranspileOptions::default()`:
plain-JS mode (`is_typescript = false`). -/
def transpile_jsx_simple (source : String) : Except String String :=
  transpile_jsx source false

/-- Input family for the mismatched-closing-tag law: an element
`<tag>` closed by `</close>`. -/
def mismatchInput (t0 : Char) (trest close : List Char) : List Char :=
  '<' :: ((t0 :: trest) ++ '>' :: '<' :: '/' :: (close ++ ['>']))

/-- Input family for the fragment law: `<>X</name>`. -/
def fragInputX (close : List Char) : List Char :=
  '<' :: '>' :: 'X' :: '<' :: '/' :: (close ++ ['>'])

/-- Input family for the fragment law: `<></name>`. -/
def fragInputE (close : List Char) : List Char :=
  '<' :: '>' :: '<' :: '/' :: (close ++ ['>'])

/-! ## Generic list and scanning lemmas -/

theorem lt_length_of_getElem? {s : List Char} {i : Nat} {c : Char}
    (h : s[i]? = some c) : i < s.length := by
  by_contra hle
  rw [List.getElem?_eq_none_iff.mpr (by omega)] at h
  exact Option.noConfusion h

theorem drop_cons_of_getElem? {s : List Char} {pos : Nat} {c : Char}
    (h : s[pos]? = some c) : s.drop pos = c :: s.drop (pos + 1) := by
  induction s generalizing pos with
  | nil => simp at h
  | cons a t ih =>
    cases pos with
    | zero =>
      simp only [List.getElem?_cons_zero, Option.some.injEq] at h
      simp [h]
    | succ p =>
      simp only [List.getElem?_cons_succ] at h
      simpa using ih h

theorem infix_of_prefix_drop {pat s : List Char} {i : Nat}
    (h : pat <+: s.drop i) : pat <:+: s := by
  obtain ⟨r, hr⟩ := h
  exact ⟨s.take i, r, by rw [List.append_assoc, hr, List.take_append_drop]⟩

theorem no_sub2 {a b : Char} {s : List Char} (h : ¬ [a, b] <:+: s) {i : Nat} :
    ¬ (s[i]? = some a ∧ s[i + 1]? = some b) := by
  rintro ⟨h1, h2⟩
  exact h (infix_of_prefix_drop (i := i)
    (by rw [drop_cons_of_getElem? h1, drop_cons_of_getElem? h2]; exact ⟨s.drop (i + 2), rfl⟩))

theorem no_sub3 {a b c : Char} {s : List Char} (h : ¬ [a, b, c] <:+: s) {i : Nat} :
    ¬ (s[i]? = some a ∧ s[i + 1]? = some b ∧ s[i + 2]? = some c) := by
  rintro ⟨h1, h2, h3⟩
  exact h (infix_of_prefix_drop (i := i)
    (by rw [drop_cons_of_getElem? h1, drop_cons_of_getElem? h2, drop_cons_of_getElem? h3]
        exact ⟨s.drop (i + 3), rfl⟩))

theorem no_sub5 {a b c d e : Char} {s : List Char} (h : ¬ [a, b, c, d, e] <:+: s) {i : Nat} :
    ¬ (s[i]? = some a ∧ s[i + 1]? = some b ∧ s[i + 2]? = some c ∧ s[i + 3]? = some d ∧
        s[i + 4]? = some e) := by
  rintro ⟨h1, h2, h3, h4, h5⟩
  exact h (infix_of_prefix_drop (i := i)
    (by rw [drop_cons_of_getElem? h1, drop_cons_of_getElem? h2, drop_cons_of_getElem? h3,
          drop_cons_of_getElem? h4, drop_cons_of_getElem? h5]
        exact ⟨s.drop (i + 5), rfl⟩))

theorem lineCommentCopy_spec (l : List Char) :
    (lineCommentCopy l).1 = l.take (lineCommentCopy l).2 ∧ (lineCommentCopy l).2 ≤ l.length ∧
      (l ≠ [] → 1 ≤ (lineCommentCopy l).2) := by
  induction l with
  | nil => simp [lineCommentCopy]
  | cons c rest ih =>
    by_cases h : c = '\n'
    · simp [lineCommentCopy, h]
    · simp only [lineCommentCopy, if_neg h]
      refine ⟨?_, ?_, fun _ => by omega⟩
      · simpa [List.take_succ_cons] using ih.1
      · have := ih.2.1
        simpa using by omega

theorem blockCommentCopy_spec (l : List Char) :
    (blockCommentCopy l).1 = l.take (blockCommentCopy l).2 ∧ (blockCommentCopy l).2 ≤ l.length := by
  induction l with
  | nil => simp [blockCommentCopy]
  | cons c rest ih =>
    cases rest with
    | nil => simp [blockCommentCopy]
    | cons nx rest2 =>
      by_cases h : c = '*' ∧ nx = '/'
      · obtain ⟨hc, hn⟩ := h
        subst hc; subst hn
        simp [blockCommentCopy]
      · have heq : blockCommentCopy (c :: nx :: rest2) =
            (c :: (blockCommentCopy (nx :: rest2)).1, (blockCommentCopy (nx :: rest2)).2 + 1) := by
          simp [blockCommentCopy, if_neg h]
        rw [heq]
        refine ⟨?_, ?_⟩
        · rw [List.take_succ_cons, ih.1]
        · have h2 := ih.2
          simp only [List.length_cons] at h2 ⊢
          omega

theorem handle_line_comment_spec (st : Dl) (h : st.pos < st.input.length) :
    ∃ n, 1 ≤ n ∧ st.pos + n ≤ st.input.length ∧
      handle_line_comment st = ⟨st.input, st.output ++ (st.input.drop st.pos).take n, st.pos + n⟩ := by
  obtain ⟨hcopy, hle, hpos⟩ := lineCommentCopy_spec (st.input.drop st.pos)
  refine ⟨(lineCommentCopy (st.input.drop st.pos)).2, ?_, ?_, ?_⟩
  · exact hpos (by simp [List.drop_eq_nil_iff]; omega)
  · have : (st.input.drop st.pos).length = st.input.length - st.pos := List.length_drop _ _
    omega
  · rw [handle_line_comment, ← hcopy]

theorem handle_block_comment_spec (st : Dl)
    (h0 : st.input[st.pos]? = some '/') (h1 : st.input[st.pos + 1]? = some '*') :
    ∃ n, 2 ≤ n ∧ st.pos + n ≤ st.input.length ∧
      handle_block_comment st = ⟨st.input, st.output ++ (st.input.drop st.pos).take n, st.pos + n⟩ := by
  obtain ⟨hcopy, hle⟩ := blockCommentCopy_spec (st.input.drop (st.pos + 2))
  refine ⟨2 + (blockCommentCopy (st.input.drop (st.pos + 2))).2, by omega, ?_, ?_⟩
  · have h1lt : st.pos + 1 < st.input.length := lt_length_of_getElem? h1
    have : (st.input.drop (st.pos + 2)).length = st.input.length - (st.pos + 2) :=
      List.length_drop _ _
    omega
  · have hdec : (st.input.drop st.pos).take (2 + (blockCommentCopy (st.input.drop (st.pos + 2))).2) =
        '/' :: '*' :: (st.input.drop (st.pos + 2)).take (blockCommentCopy (st.input.drop (st.pos + 2))).2 := by
      rw [drop_cons_of_getElem? h0, drop_cons_of_getElem? h1,
        show 2 + (blockCommentCopy (st.input.drop (st.pos + 2))).2 =
          ((blockCommentCopy (st.input.drop (st.pos + 2))).2 + 1) + 1 from by omega,
        List.take_succ_cons, List.take_succ_cons,
        show st.pos + 1 + 1 = st.pos + 2 from rfl]
    have hbc : handle_block_comment st =
        ⟨st.input, st.output ++ "/*".data ++ (blockCommentCopy (st.input.drop (st.pos + 2))).1,
          st.pos + 2 + (blockCommentCopy (st.input.drop (st.pos + 2))).2⟩ := rfl
    rw [hbc, hdec, ← hcopy]
    simp only [Dl.mk.injEq]
    exact ⟨by trivial, by simp [show "/*".data = ['/', '*'] from rfl], by omega⟩

theorem handle_normal_spec {st : Dl}
    (hqd : ¬ ['?', '.'] <:+: st.input) (hqq : ¬ ['?', '?'] <:+: st.input)
    (hconst : ¬ ['c', 'o', 'n', 's', 't'] <:+: st.input)
    (hlet : ¬ ['l', 'e', 't'] <:+: st.input)
    {c : Char} (hc : st.input[st.pos]? = some c) :
    handle_normal st = ⟨st.input, st.output ++ [c], st.pos + 1⟩ := by
  rw [handle_normal]
  rw [if_neg, if_neg, if_neg, if_neg]
  · show (match st.currentChar with
      | some c => { st with output := st.output ++ [c], pos := st.pos + 1 }
      | none => { st with pos := st.pos + 1 }) = _
    rw [show st.currentChar = some c from hc]
  · rintro ⟨h1, h2⟩
    exact no_sub2 hqq ⟨h1, h2⟩
  · rintro ⟨h1, h2, _⟩
    exact no_sub2 hqd ⟨h1, h2⟩
  · rintro ⟨_, h1, h2, h3, _⟩
    exact no_sub3 hlet ⟨h1, h2, h3⟩
  · rintro ⟨_, h1, h2, h3, h4, h5, _⟩
    exact no_sub5 hconst ⟨h1, h2, h3, h4, h5⟩

theorem take_add_one_cons {s : List Char} {p : Nat} {a : Char}
    (ha : s[p]? = some a) (n : Nat) :
    (s.drop p).take (1 + n) = a :: (s.drop (p + 1)).take n := by
  rw [drop_cons_of_getElem? ha, show 1 + n = n + 1 from by omega, List.take_succ_cons]

theorem take_add_two_cons {s : List Char} {p : Nat} {a b : Char}
    (ha : s[p]? = some a) (hb : s[p + 1]? = some b) (n : Nat) :
    (s.drop p).take (2 + n) = a :: b :: (s.drop (p + 2)).take n := by
  rw [drop_cons_of_getElem? ha, drop_cons_of_getElem? hb,
    show 2 + n = (n + 1) + 1 from by omega, List.take_succ_cons, List.take_succ_cons,
    show p + 1 + 1 = p + 2 from rfl]

theorem take_drop_glue (s : List Char) (p n : Nat) :
    (s.drop p).take n ++ s.drop (p + n) = s.drop p := by
  rw [← List.drop_drop]
  exact List.take_append_drop n (s.drop p)

theorem take_chain {s : List Char} {p : Nat} (n m : Nat) :
    (s.drop p).take n ++ (s.drop (p + n)).take m = (s.drop p).take (n + m) := by
  rw [List.take_add, ← List.drop_drop]

theorem templLoop_zero (fuel : Nat) (st : Dl) : templLoop fuel 0 st = (st, 0) := by
  cases fuel <;> simp [templLoop]

theorem currentState_line {st : Dl} (h0 : st.input[st.pos]? = some '/')
    (h1 : st.input[st.pos + 1]? = some '/') : st.currentState = .inLineComment := by
  have hlt := lt_length_of_getElem? h0
  simp [Dl.currentState, Dl.currentChar, Dl.peek, h0, h1, Nat.not_le.mpr hlt]

theorem currentState_block {st : Dl} (h0 : st.input[st.pos]? = some '/')
    (h1 : st.input[st.pos + 1]? = some '*') : st.currentState = .inBlockComment := by
  have hlt := lt_length_of_getElem? h0
  simp [Dl.currentState, Dl.currentChar, Dl.peek, h0, h1, Nat.not_le.mpr hlt]

theorem currentState_string {st : Dl} {q : Char} (h0 : st.input[st.pos]? = some q)
    (hq : q = '"' ∨ q = squote ∨ q = btick) : st.currentState = .inString q := by
  have hlt := lt_length_of_getElem? h0
  have hslash : q ≠ '/' := by
    rcases hq with h | h | h <;> subst h <;> decide
  simp [Dl.currentState, Dl.currentChar, Dl.peek, h0, Nat.not_le.mpr hlt, hslash, hq]

theorem currentState_normal_nonslash {st : Dl} {c : Char} (h0 : st.input[st.pos]? = some c)
    (hc1 : c ≠ '/') (hc2 : ¬ (c = '"' ∨ c = squote ∨ c = btick)) :
    st.currentState = .normal := by
  have hlt := lt_length_of_getElem? h0
  simp [Dl.currentState, Dl.currentChar, Dl.peek, h0, Nat.not_le.mpr hlt, hc1, hc2]

theorem currentState_normal_slash {st : Dl} (h0 : st.input[st.pos]? = some '/')
    (h1 : st.input[st.pos + 1]? ≠ some '/') (h2 : st.input[st.pos + 1]? ≠ some '*') :
    st.currentState = .normal := by
  have hlt := lt_length_of_getElem? h0
  simp [Dl.currentState, Dl.currentChar, Dl.peek, h0, h1, h2, Nat.not_le.mpr hlt]

/-- `(l.drop p).take 1` is the singleton at position `p`. -/
theorem take_one_of_getElem? {s : List Char} {p : Nat} {a : Char}
    (ha : s[p]? = some a) : (s.drop p).take 1 = [a] := by
  rw [drop_cons_of_getElem? ha]
  rfl

/-- The downlevel transformer's three mutually recursive loops copy the
input verbatim when the input has no `?.`, `??`, `const`, or `let`
substring: the main loop runs to the end of the input appending exactly
the remaining text, and the string/interpolation loops append exactly
the text they consume. -/
theorem dl_master (s : List Char)
    (hqd : ¬ ['?', '.'] <:+: s) (hqq : ¬ ['?', '?'] <:+: s)
    (hconst : ¬ ['c', 'o', 'n', 's', 't'] <:+: s) (hlet : ¬ ['l', 'e', 't'] <:+: s) :
    ∀ fuel : Nat,
      (∀ st : Dl, st.input = s → st.pos ≤ s.length → s.length - st.pos < fuel →
        dlLoop fuel st = ⟨s, st.output ++ s.drop st.pos, s.length⟩) ∧
      (∀ q st, st.input = s → st.pos ≤ s.length → s.length - st.pos < fuel →
        ∃ n, st.pos + n ≤ s.length ∧
          stringLoop fuel q st = ⟨s, st.output ++ (s.drop st.pos).take n, st.pos + n⟩) ∧
      (∀ depth st, st.input = s → st.pos ≤ s.length → s.length - st.pos < fuel → 0 < depth →
        ∃ n, st.pos + n ≤ s.length ∧ (templLoop fuel depth st).1.input = s ∧
          (templLoop fuel depth st).1.pos = st.pos + n ∧
          (if (templLoop fuel depth st).2 = 0 then
            (templLoop fuel depth st).1.output ++ ['}'] = st.output ++ (s.drop st.pos).take n
          else (templLoop fuel depth st).1.output = st.output ++ (s.drop st.pos).take n)) := by
  intro fuel
  induction fuel with
  | zero =>
    exact ⟨fun st _ _ h => absurd h (by omega), fun q st _ _ h => absurd h (by omega),
      fun d st _ _ h _ => absurd h (by omega)⟩
  | succ f ih =>
    obtain ⟨ihP, ihQ, ihR⟩ := ih
    -- the string loop invariant (used by both the main loop and the
    -- interpolation loop)
    have Qstep : ∀ q (st : Dl), st.input = s → st.pos ≤ s.length → s.length - st.pos < f + 1 →
        ∃ n, st.pos + n ≤ s.length ∧
          stringLoop (f + 1) q st = ⟨s, st.output ++ (s.drop st.pos).take n, st.pos + n⟩ := by
      intro q st hin hle hfuel
      by_cases hlt : st.pos < s.length
      · cases hget : s[st.pos]? with
        | none =>
          rw [List.getElem?_eq_none_iff] at hget
          omega
        | some c =>
          have hc : st.currentChar = some c := by
            show st.input[st.pos]? = some c
            rw [hin]
            exact hget
          rw [stringLoop, if_pos (by rw [hin]; exact hlt)]
          simp only [hc]
          by_cases hesc : c = '\\' ∧ (st.peek 1).isSome
          · rw [if_pos hesc]
            obtain ⟨hc2, hpk⟩ := hesc
            subst hc2
            cases hget1 : s[st.pos + 1]? with
            | none =>
              exfalso
              have hnone : st.peek 1 = none := by
                show st.input[st.pos + 1]? = none
                rw [hin]
                exact hget1
              rw [hnone] at hpk
              simp at hpk
            | some nx =>
              have hpk1 : st.peek 1 = some nx := by
                show st.input[st.pos + 1]? = some nx
                rw [hin]
                exact hget1
              simp only [hpk1]
              obtain ⟨m, hm, hQ⟩ := ihQ q { st with output := st.output ++ ['\\', nx], pos := st.pos + 2 }
                hin (by show st.pos + 2 ≤ s.length; have := lt_length_of_getElem? hget1; omega)
                (by show s.length - (st.pos + 2) < f; omega)
              have hm2 : st.pos + 2 + m ≤ s.length := hm
              refine ⟨2 + m, by omega, ?_⟩
              rw [hQ, take_add_two_cons hget hget1]
              simp only [Dl.mk.injEq]
              exact ⟨by trivial, by simp, by omega⟩
          · rw [if_neg hesc]
            by_cases hcq : c = q
            · rw [if_pos hcq]
              refine ⟨1, by have := lt_length_of_getElem? hget; omega, ?_⟩
              subst hcq
              rw [take_one_of_getElem? hget]
              simp only [Dl.mk.injEq]
              exact ⟨hin, by trivial, by trivial⟩
            · rw [if_neg hcq]
              by_cases htpl : q = btick ∧ c = '$' ∧ st.peek 1 = some '{'
              · rw [if_pos htpl]
                obtain ⟨hqb, hcd, hpk⟩ := htpl
                subst hcd
                have hget1 : s[st.pos + 1]? = some '{' := by
                  rw [← hin]
                  exact hpk
                have hle2 : st.pos + 2 ≤ s.length := by
                  have := lt_length_of_getElem? hget1
                  omega
                obtain ⟨m, hm, hRin, hRpos, hRout⟩ :=
                  ihR 1 { st with output := st.output ++ ['$', '{'], pos := st.pos + 2 }
                    hin hle2 (by show s.length - (st.pos + 2) < f; omega) (by omega)
                have hm2 : st.pos + 2 + m ≤ s.length := hm
                have hRpos2 : (templLoop f 1 { st with output := st.output ++ ['$', '{'], pos := st.pos + 2 }).1.pos =
                    st.pos + 2 + m := hRpos
                have hRout2 :
                    (if (templLoop f 1 { st with output := st.output ++ ['$', '{'], pos := st.pos + 2 }).2 = 0 then
                      (templLoop f 1 { st with output := st.output ++ ['$', '{'], pos := st.pos + 2 }).1.output ++ ['}'] =
                        (st.output ++ ['$', '{']) ++ (s.drop (st.pos + 2)).take m
                    else
                      (templLoop f 1 { st with output := st.output ++ ['$', '{'], pos := st.pos + 2 }).1.output =
                        (st.output ++ ['$', '{']) ++ (s.drop (st.pos + 2)).take m) := hRout
                set r := templLoop f 1 { st with output := st.output ++ ['$', '{'], pos := st.pos + 2 } with hr
                have hst2 : templFinish r =
                    (⟨s, (st.output ++ ['$', '{']) ++ (s.drop (st.pos + 2)).take m, st.pos + 2 + m⟩ : Dl) := by
                  rw [templFinish]
                  have hr1 : r.1 = ⟨s, r.1.output, st.pos + 2 + m⟩ := by
                    rw [← hRin, ← hRpos2]
                  by_cases h0 : r.2 = 0
                  · rw [if_pos h0]
                    rw [if_pos h0] at hRout2
                    rw [hr1]
                    simp only [Dl.mk.injEq]
                    exact ⟨by trivial, hRout2, by trivial⟩
                  · rw [if_neg h0]
                    rw [if_neg h0] at hRout2
                    rw [hr1]
                    simp only [Dl.mk.injEq]
                    exact ⟨by trivial, hRout2, by trivial⟩
                rw [hst2]
                obtain ⟨k, hk, hQ⟩ := ihQ q
                  ⟨s, (st.output ++ ['$', '{']) ++ (s.drop (st.pos + 2)).take m, st.pos + 2 + m⟩
                  rfl (by show st.pos + 2 + m ≤ s.length; omega)
                  (by show s.length - (st.pos + 2 + m) < f; omega)
                have hk2 : st.pos + 2 + m + k ≤ s.length := hk
                rw [hQ]
                refine ⟨2 + (m + k), by omega, ?_⟩
                simp only [Dl.mk.injEq]
                refine ⟨by trivial, ?_, by omega⟩
                show st.output ++ ['$', '{'] ++ (s.drop (st.pos + 2)).take m ++ (s.drop (st.pos + 2 + m)).take k = _
                rw [List.append_assoc (st.output ++ ['$', '{'])]
                rw [take_chain m k]
                rw [take_add_two_cons hget hget1 (m + k)]
                simp
              · rw [if_neg htpl]
                obtain ⟨m, hm, hQ⟩ := ihQ q { st with output := st.output ++ [c], pos := st.pos + 1 }
                  hin (by show st.pos + 1 ≤ s.length; have := lt_length_of_getElem? hget; omega)
                  (by show s.length - (st.pos + 1) < f; omega)
                have hm2 : st.pos + 1 + m ≤ s.length := hm
                refine ⟨1 + m, by omega, ?_⟩
                rw [hQ, take_add_one_cons hget]
                simp only [Dl.mk.injEq]
                exact ⟨by trivial, by simp, by omega⟩
      · refine ⟨0, by omega, ?_⟩
        rw [stringLoop, if_neg (by rw [hin]; omega)]
        simp only [List.take_zero, List.append_nil, Nat.add_zero]
        rw [← hin]
      -- (structure eta: `st` equals its rebuilt form)
    refine ⟨?_, ?_, ?_⟩
    · -- dlLoop
      intro st hin hle hfuel
      by_cases hlt : st.pos < s.length
      · cases hget : s[st.pos]? with
        | none =>
          rw [List.getElem?_eq_none_iff] at hget
          omega
        | some c =>
          have hc : st.input[st.pos]? = some c := by
            rw [hin]
            exact hget
          have hnext : ∃ n, 1 ≤ n ∧ st.pos + n ≤ s.length ∧
              dlLoop (f + 1) st = dlLoop f ⟨s, st.output ++ (s.drop st.pos).take n, st.pos + n⟩ := by
            by_cases hq : c = '"' ∨ c = squote ∨ c = btick
            · have hT : dlLoop (f + 1) st = dlLoop f (handleString f c st) := by
                conv_lhs => rw [dlLoop]
                rw [if_pos (by rw [hin]; exact hlt), currentState_string hc hq]
              rw [hT, handleString]
              obtain ⟨m, hm, hQ⟩ := ihQ c { st with output := st.output ++ [c], pos := st.pos + 1 }
                hin (by show st.pos + 1 ≤ s.length; have := lt_length_of_getElem? hget; omega)
                (by show s.length - (st.pos + 1) < f; omega)
              have hm2 : st.pos + 1 + m ≤ s.length := hm
              rw [hQ]
              refine ⟨1 + m, by omega, by omega, ?_⟩
              congr 1
              simp only [Dl.mk.injEq]
              refine ⟨by trivial, ?_, by omega⟩
              rw [take_add_one_cons hget m]
              simp
            · by_cases hsl : c = '/'
              · subst hsl
                by_cases hd1 : s[st.pos + 1]? = some '/'
                · rw [dlLoop, if_pos (by rw [hin]; exact hlt),
                    currentState_line hc (by rw [hin]; exact hd1)]
                  obtain ⟨n, hn1, hn2, hlc⟩ := handle_line_comment_spec st (by rw [hin]; omega)
                  rw [hin] at hn2 hlc
                  exact ⟨n, hn1, hn2, by rw [hlc]⟩
                · by_cases hd2 : s[st.pos + 1]? = some '*'
                  · rw [dlLoop, if_pos (by rw [hin]; exact hlt),
                      currentState_block hc (by rw [hin]; exact hd2)]
                    obtain ⟨n, hn1, hn2, hbc⟩ := handle_block_comment_spec st hc (by rw [hin]; exact hd2)
                    rw [hin] at hn2 hbc
                    exact ⟨n, by omega, hn2, by rw [hbc]⟩
                  · rw [dlLoop, if_pos (by rw [hin]; exact hlt),
                      currentState_normal_slash hc (by rw [hin]; exact hd1) (by rw [hin]; exact hd2)]
                    rw [handle_normal_spec (hin ▸ hqd) (hin ▸ hqq) (hin ▸ hconst) (hin ▸ hlet) hc]
                    refine ⟨1, le_refl 1, by have := lt_length_of_getElem? hget; omega, ?_⟩
                    rw [hin, take_one_of_getElem? hget]
              · rw [dlLoop, if_pos (by rw [hin]; exact hlt), currentState_normal_nonslash hc hsl hq]
                rw [handle_normal_spec (hin ▸ hqd) (hin ▸ hqq) (hin ▸ hconst) (hin ▸ hlet) hc]
                refine ⟨1, le_refl 1, by have := lt_length_of_getElem? hget; omega, ?_⟩
                rw [hin, take_one_of_getElem? hget]
          obtain ⟨n, hn1, hn2, hrun⟩ := hnext
          rw [hrun, ihP _ rfl (by show st.pos + n ≤ s.length; omega)
            (by show s.length - (st.pos + n) < f; omega)]
          simp only [Dl.mk.injEq]
          refine ⟨by trivial, ?_, by trivial⟩
          rw [List.append_assoc, take_drop_glue]
      · have hpos : st.pos = s.length := by omega
        rw [dlLoop, if_neg (by rw [hin]; omega)]
        rw [hpos, List.drop_length, List.append_nil]
        rw [← hpos, ← hin]
    · -- stringLoop
      exact Qstep
    · -- templLoop
      intro depth st hin hle hfuel hdep
      by_cases hlt : st.pos < s.length
      · cases hget : s[st.pos]? with
        | none =>
          rw [List.getElem?_eq_none_iff] at hget
          omega
        | some c =>
          have hc : st.input[st.pos]? = some c := by
            rw [hin]
            exact hget
          have hcc : st.currentChar = some c := hc
          -- composing one verbatim step with the rest of the loop
          have Rglue : ∀ (n1 dep : Nat) , 1 ≤ n1 → 0 < dep → st.pos + n1 ≤ s.length →
              ∃ n, st.pos + n ≤ s.length ∧
                (templLoop f dep ⟨s, st.output ++ (s.drop st.pos).take n1, st.pos + n1⟩).1.input = s ∧
                (templLoop f dep ⟨s, st.output ++ (s.drop st.pos).take n1, st.pos + n1⟩).1.pos = st.pos + n ∧
                (if (templLoop f dep ⟨s, st.output ++ (s.drop st.pos).take n1, st.pos + n1⟩).2 = 0 then
                  (templLoop f dep ⟨s, st.output ++ (s.drop st.pos).take n1, st.pos + n1⟩).1.output ++ ['}'] =
                    st.output ++ (s.drop st.pos).take n
                else
                  (templLoop f dep ⟨s, st.output ++ (s.drop st.pos).take n1, st.pos + n1⟩).1.output =
                    st.output ++ (s.drop st.pos).take n) := by
            intro n1 dep hn1 hdp hle1
            obtain ⟨k, hk, hRin, hRpos, hRout⟩ :=
              ihR dep ⟨s, st.output ++ (s.drop st.pos).take n1, st.pos + n1⟩ rfl
                (by show st.pos + n1 ≤ s.length; omega)
                (by show s.length - (st.pos + n1) < f; omega) hdp
            have hk2 : st.pos + n1 + k ≤ s.length := hk
            have hRpos2 : (templLoop f dep ⟨s, st.output ++ (s.drop st.pos).take n1, st.pos + n1⟩).1.pos =
                st.pos + n1 + k := hRpos
            refine ⟨n1 + k, by omega, hRin, by rw [hRpos2]; omega, ?_⟩
            by_cases h0 : (templLoop f dep ⟨s, st.output ++ (s.drop st.pos).take n1, st.pos + n1⟩).2 = 0
            · rw [if_pos h0] at hRout ⊢
              rw [hRout, List.append_assoc, take_chain n1 k]
            · rw [if_neg h0] at hRout ⊢
              rw [hRout, List.append_assoc, take_chain n1 k]
          have hpush : ∀ (x : Char), s[st.pos]? = some x →
              ({ st with output := st.output ++ [x], pos := st.pos + 1 } : Dl) =
                ⟨s, st.output ++ (s.drop st.pos).take 1, st.pos + 1⟩ := by
            intro x hx
            rw [take_one_of_getElem? hx]
            simp only [Dl.mk.injEq]
            exact ⟨hin, by trivial, by trivial⟩
          by_cases hq : c = '"' ∨ c = squote ∨ c = btick
          · have hT : templLoop (f + 1) depth st = templLoop f depth (handleString f c st) := by
              conv_lhs => rw [templLoop]
              rw [if_pos ⟨hdep, by rw [hin]; exact hlt⟩, currentState_string hc hq]
            rw [hT, handleString]
            obtain ⟨m, hm, hQ⟩ := ihQ c { st with output := st.output ++ [c], pos := st.pos + 1 }
              hin (by show st.pos + 1 ≤ s.length; have := lt_length_of_getElem? hget; omega)
              (by show s.length - (st.pos + 1) < f; omega)
            have hm2 : st.pos + 1 + m ≤ s.length := hm
            rw [hQ]
            have hsh : (⟨s, ({ st with output := st.output ++ [c], pos := st.pos + 1 } : Dl).output ++
                  (s.drop (({ st with output := st.output ++ [c], pos := st.pos + 1 } : Dl).pos)).take m,
                  ({ st with output := st.output ++ [c], pos := st.pos + 1 } : Dl).pos + m⟩ : Dl) =
                ⟨s, st.output ++ (s.drop st.pos).take (1 + m), st.pos + (1 + m)⟩ := by
              simp only [Dl.mk.injEq]
              refine ⟨by trivial, ?_, by omega⟩
              rw [take_add_one_cons hget m]
              simp
            rw [hsh]
            exact Rglue (1 + m) depth (by omega) hdep (by omega)
          · by_cases hsl : c = '/'
            · subst hsl
              by_cases hd1 : s[st.pos + 1]? = some '/'
              · have hT : templLoop (f + 1) depth st = templLoop f depth (handle_line_comment st) := by
                  conv_lhs => rw [templLoop]
                  rw [if_pos ⟨hdep, by rw [hin]; exact hlt⟩,
                    currentState_line hc (by rw [hin]; exact hd1)]
                obtain ⟨n1, hn1, hn2, hlc⟩ := handle_line_comment_spec st (by rw [hin]; omega)
                rw [hin] at hn2 hlc
                rw [hT, hlc]
                exact Rglue n1 depth hn1 hdep hn2
              · by_cases hd2 : s[st.pos + 1]? = some '*'
                · have hT : templLoop (f + 1) depth st = templLoop f depth (handle_block_comment st) := by
                    conv_lhs => rw [templLoop]
                    rw [if_pos ⟨hdep, by rw [hin]; exact hlt⟩,
                      currentState_block hc (by rw [hin]; exact hd2)]
                  obtain ⟨n1, hn1, hn2, hbc⟩ := handle_block_comment_spec st hc (by rw [hin]; exact hd2)
                  rw [hin] at hn2 hbc
                  rw [hT, hbc]
                  exact Rglue n1 depth (by omega) hdep hn2
                · -- a lone slash: normal character push
                  have hnorm : st.currentState = .normal :=
                    currentState_normal_slash hc (by rw [hin]; exact hd1) (by rw [hin]; exact hd2)
                  have hT : templLoop (f + 1) depth st =
                      templLoop f depth { st with output := st.output ++ ['/'], pos := st.pos + 1 } := by
                    conv_lhs => rw [templLoop]
                    rw [if_pos ⟨hdep, by rw [hin]; exact hlt⟩]
                    simp only [hnorm, hcc]
                    rw [if_neg (show ¬ ('/' : Char) = '{' from by decide),
                      if_neg (show ¬ ('/' : Char) = '}' from by decide),
                      if_neg (show ¬ ('/' : Char) = '?' from by decide)]
                  rw [hT, hpush '/' hget]
                  exact Rglue 1 depth (le_refl 1) hdep (by omega)
            · have hnorm : st.currentState = .normal := currentState_normal_nonslash hc hsl hq
              have hT : templLoop (f + 1) depth st =
                  (if c = '{' then
                    templLoop f (depth + 1) { st with output := st.output ++ ['{'], pos := st.pos + 1 }
                  else if c = '}' then
                    let st1 : Dl :=
                      if 0 < depth - 1 then { st with output := st.output ++ ['}'], pos := st.pos + 1 }
                      else { st with pos := st.pos + 1 }
                    templLoop f (depth - 1) st1
                  else if c = '?' then
                    if st.peek 1 = some '.' then
                      if st.isOptionalChainingContext then templLoop f depth (transform_optional_chaining st)
                      else templLoop f depth st
                    else if st.peek 1 = some '?' then
                      templLoop f depth (transform_nullish_coalescing st)
                    else templLoop f depth { st with output := st.output ++ ['?'], pos := st.pos + 1 }
                  else templLoop f depth { st with output := st.output ++ [c], pos := st.pos + 1 }) := by
                conv_lhs => rw [templLoop]
                rw [if_pos ⟨hdep, by rw [hin]; exact hlt⟩, hnorm, hcc]
              rw [hT]
              by_cases hbo : c = '{'
              · rw [if_pos hbo]
                rw [hpush '{' (hbo ▸ hget)]
                exact Rglue 1 (depth + 1) (le_refl 1) (by omega) (by have := lt_length_of_getElem? hget; omega)
              · rw [if_neg hbo]
                by_cases hbc : c = '}'
                · rw [if_pos hbc]
                  by_cases hdd : 0 < depth - 1
                  · simp only [if_pos hdd]
                    rw [hpush '}' (hbc ▸ hget)]
                    exact Rglue 1 (depth - 1) (le_refl 1) hdd (by have := lt_length_of_getElem? hget; omega)
                  · simp only [if_neg hdd]
                    rw [show depth - 1 = 0 from by omega, templLoop_zero]
                    refine ⟨1, by have := lt_length_of_getElem? hget; omega, hin, rfl, ?_⟩
                    rw [if_pos rfl]
                    show st.output ++ ['}'] = st.output ++ (s.drop st.pos).take 1
                    rw [take_one_of_getElem? (hbc ▸ hget)]
                · rw [if_neg hbc]
                  by_cases hqm : c = '?'
                  · rw [if_pos hqm]
                    have hnd : ¬ st.peek 1 = some '.' := by
                      intro hdot
                      exact no_sub2 hqd ⟨hqm ▸ hget, by rw [← hin]; exact hdot⟩
                    have hnq : ¬ st.peek 1 = some '?' := by
                      intro hqs
                      exact no_sub2 hqq ⟨hqm ▸ hget, by rw [← hin]; exact hqs⟩
                    rw [if_neg hnd, if_neg hnq]
                    rw [hpush '?' (hqm ▸ hget)]
                    exact Rglue 1 depth (le_refl 1) hdep (by have := lt_length_of_getElem? hget; omega)
                  · rw [if_neg hqm]
                    rw [hpush c hget]
                    exact Rglue 1 depth (le_refl 1) hdep (by have := lt_length_of_getElem? hget; omega)
      · have hng : ¬ (0 < depth ∧ st.pos < st.input.length) := by
          rw [hin]
          omega
        have hT : templLoop (f + 1) depth st = (st, depth) := by
          rw [templLoop, if_neg hng]
        refine ⟨0, by omega, ?_, ?_, ?_⟩
        · rw [hT]
          exact hin
        · rw [hT]
          simp
        · rw [hT]
          rw [if_neg (show ¬ ((st, depth)).2 = 0 from by show ¬ depth = 0; omega)]
          simp

/-- A character delivered by `getElem?` is a member of the list. -/
theorem getElem_opt_mem {s : List Char} {i : Nat} {c : Char}
    (h : s[i]? = some c) : c ∈ s := by
  have hd := drop_cons_of_getElem? h
  have hm : c ∈ s.drop i := by
    rw [hd]
    exact List.mem_cons_self _ _
  exact List.mem_of_mem_drop hm

/-- The block-comment copy of `transpile_jsx`'s main loop takes a
prefix of the remaining source and copies it verbatim. -/
theorem jsxBlockCopy_spec (l : List Char) :
    (jsxBlockCopy l).1 = l.take (jsxBlockCopy l).2 ∧ (jsxBlockCopy l).2 ≤ l.length := by
  induction l with
  | nil => simp [jsxBlockCopy]
  | cons c rest ih =>
    by_cases h : c = '*' ∧ rest.head? = some '/'
    · obtain ⟨hc, hh⟩ := h
      subst hc
      cases rest with
      | nil => simp at hh
      | cons nx rest2 =>
        simp only [List.head?_cons, Option.some.injEq] at hh
        subst hh
        refine ⟨by simp [jsxBlockCopy], ?_⟩
        have h2 : (jsxBlockCopy ('*' :: '/' :: rest2)).2 = 2 := by simp [jsxBlockCopy]
        rw [h2]
        simp only [List.length_cons]
        omega
    · have heq : jsxBlockCopy (c :: rest) =
          (c :: (jsxBlockCopy rest).1, (jsxBlockCopy rest).2 + 1) := by
        simp [jsxBlockCopy, if_neg h]
      rw [heq]
      refine ⟨?_, ?_⟩
      · rw [List.take_succ_cons, ih.1]
      · simp only [List.length_cons]
        have := ih.2
        omega

/-- `strCopyLoop` with a non-backtick quote copies a prefix of the
remaining source verbatim and never errors (the template-interpolation
branch is unreachable). -/
theorem strCopy_spec (s : List Char) :
    ∀ fuel q pos t out, q ≠ btick → pos ≤ s.length → s.length - pos < fuel →
      ∃ n, pos + n ≤ s.length ∧
        strCopyLoop fuel q ⟨s, pos, t⟩ out =
          .ok ((⟨s, pos + n, t⟩ : ParseContext), out ++ (s.drop pos).take n) := by
  intro fuel
  induction fuel with
  | zero =>
    intro q pos t out _ _ hf
    omega
  | succ f ih =>
    intro q pos t out hq hle hf
    by_cases hpos : pos < s.length
    · obtain ⟨c, hget⟩ : ∃ c, s[pos]? = some c := by
        cases hx : s[pos]? with
        | none => exact absurd (List.getElem?_eq_none_iff.mp hx) (by omega)
        | some c => exact ⟨c, rfl⟩
      have hcc : ParseContext.currentChar ⟨s, pos, t⟩ = some c := hget
      rw [strCopyLoop]
      simp only [hcc]
      by_cases hbs : c = '\\'
      · rw [if_pos hbs]
        cases hpk : s[pos + 1]? with
        | some nx =>
          have hpk2 : ParseContext.peek ⟨s, pos, t⟩ 1 = some nx := hpk
          simp only [hpk2]
          obtain ⟨m, hm, heq⟩ := ih q (pos + 2) t (out ++ [c, nx]) hq
            (by have := lt_length_of_getElem? hpk; omega) (by omega)
          refine ⟨2 + m, by omega, ?_⟩
          show strCopyLoop f q ⟨s, pos + 2, t⟩ (out ++ [c, nx]) = _
          rw [heq, show pos + (2 + m) = pos + 2 + m from by omega,
            take_add_two_cons hget hpk m]
          simp
        | none =>
          have hpk2 : ParseContext.peek ⟨s, pos, t⟩ 1 = none := hpk
          simp only [hpk2]
          obtain ⟨m, hm, heq⟩ := ih q (pos + 1) t (out ++ [c]) hq (by omega) (by omega)
          refine ⟨1 + m, by omega, ?_⟩
          show strCopyLoop f q ⟨s, pos + 1, t⟩ (out ++ [c]) = _
          rw [heq, show pos + (1 + m) = pos + 1 + m from by omega,
            take_add_one_cons hget m]
          simp
      · rw [if_neg hbs]
        by_cases hcq : c = q
        · rw [if_pos hcq]
          refine ⟨1, by omega, ?_⟩
          rw [take_one_of_getElem? hget]
          rfl
        · rw [if_neg hcq]
          rw [if_neg (show ¬ (q = btick ∧ c = '$' ∧
              ParseContext.peek ⟨s, pos, t⟩ 1 = some '{') from fun h => hq h.1)]
          obtain ⟨m, hm, heq⟩ := ih q (pos + 1) t (out ++ [c]) hq (by omega) (by omega)
          refine ⟨1 + m, by omega, ?_⟩
          show strCopyLoop f q ⟨s, pos + 1, t⟩ (out ++ [c]) = _
          rw [heq, show pos + (1 + m) = pos + 1 + m from by omega,
            take_add_one_cons hget m]
          simp
    · have hcc : ParseContext.currentChar ⟨s, pos, t⟩ = none :=
        List.getElem?_eq_none_iff.mpr (by show s.length ≤ pos; omega)
      rw [strCopyLoop]
      simp only [hcc]
      refine ⟨0, by omega, ?_⟩
      simp

/-- On a source containing no `<` and no backtick, the main loop of
`transpile_jsx` copies the source verbatim to the end and never
errors: strings and comments are reproduced character for character
and the JSX branch is never entered. -/
theorem transpileLoop_id (s : List Char) (hlts : '<' ∉ s) (hbt : btick ∉ s) :
    ∀ fuel (ctx : ParseContext) out, ctx.source = s → ctx.pos ≤ s.length →
      s.length - ctx.pos < fuel →
      transpileLoop fuel ctx out = .ok (out ++ s.drop ctx.pos) := by
  intro fuel
  induction fuel with
  | zero =>
    intro ctx out _ _ hf
    omega
  | succ f ih =>
    intro ctx out hin hle hf
    rw [transpileLoop]
    simp only [hin]
    by_cases hpos : ctx.pos < s.length
    · rw [if_pos hpos]
      obtain ⟨ch, hget⟩ : ∃ c, s[ctx.pos]? = some c := by
        cases hx : s[ctx.pos]? with
        | none => exact absurd (List.getElem?_eq_none_iff.mp hx) (by omega)
        | some c => exact ⟨c, rfl⟩
      have hcc : ctx.currentChar = some ch := by
        show ctx.source[ctx.pos]? = some ch
        rw [hin]
        exact hget
      simp only [hcc]
      have hchlt : ch ≠ '<' := fun h => hlts (h ▸ getElem_opt_mem hget)
      have hchbt : ch ≠ btick := fun h => hbt (h ▸ getElem_opt_mem hget)
      have hpush : transpileLoop f ctx.advance (out ++ [ch]) = .ok (out ++ s.drop ctx.pos) := by
        rw [show ctx.advance = (⟨s, ctx.pos + 1, ctx.is_typescript⟩ : ParseContext) from by
          rw [ParseContext.advance, hin]]
        rw [ih ⟨s, ctx.pos + 1, ctx.is_typescript⟩ (out ++ [ch]) rfl
          (by show ctx.pos + 1 ≤ s.length; omega)
          (by show s.length - (ctx.pos + 1) < f; omega)]
        show Except.ok (out ++ [ch] ++ s.drop (ctx.pos + 1)) = _
        rw [drop_cons_of_getElem? hget]
        simp
      by_cases hq : ch = '"' ∨ ch = squote ∨ ch = btick
      · rw [if_pos hq]
        rw [show ctx.advance = (⟨s, ctx.pos + 1, ctx.is_typescript⟩ : ParseContext) from by
          rw [ParseContext.advance, hin]]
        obtain ⟨m, hm, heq⟩ := strCopy_spec s f ch (ctx.pos + 1) ctx.is_typescript
          (out ++ [ch]) hchbt (by omega) (by omega)
        simp only [heq]
        rw [ih ⟨s, ctx.pos + 1 + m, ctx.is_typescript⟩
          (out ++ [ch] ++ (s.drop (ctx.pos + 1)).take m) rfl
          (by show ctx.pos + 1 + m ≤ s.length; omega)
          (by show s.length - (ctx.pos + 1 + m) < f; omega)]
        show Except.ok (out ++ [ch] ++ (s.drop (ctx.pos + 1)).take m ++ s.drop (ctx.pos + 1 + m)) = _
        rw [List.append_assoc (out ++ [ch]), take_drop_glue, drop_cons_of_getElem? hget]
        simp
      · rw [if_neg hq]
        by_cases hsl : ch = '/'
        · cases hpk : s[ctx.pos + 1]? with
          | some c2 =>
            have hpk2 : ctx.peek 1 = some c2 := by
              show ctx.source[ctx.pos + 1]? = some c2
              rw [hin]
              exact hpk
            have hp1 : ctx.pos + 1 < s.length := lt_length_of_getElem? hpk
            by_cases hc2l : c2 = '/'
            · rw [if_pos ⟨hsl, by rw [hpk2, hc2l]⟩]
              obtain ⟨hcopy, hlen2, -⟩ := lineCommentCopy_spec (s.drop (ctx.pos + 2))
              have hlen3 : (s.drop (ctx.pos + 2)).length = s.length - (ctx.pos + 2) :=
                List.length_drop _ _
              show transpileLoop f
                  (⟨s, ctx.pos + 2 + (lineCommentCopy (s.drop (ctx.pos + 2))).2,
                    ctx.is_typescript⟩ : ParseContext)
                  (out ++ ['/', '/'] ++ (lineCommentCopy (s.drop (ctx.pos + 2))).1) = _
              rw [hcopy]
              rw [ih (⟨s, ctx.pos + 2 + (lineCommentCopy (s.drop (ctx.pos + 2))).2,
                  ctx.is_typescript⟩ : ParseContext)
                (out ++ ['/', '/'] ++
                  (s.drop (ctx.pos + 2)).take (lineCommentCopy (s.drop (ctx.pos + 2))).2)
                rfl
                (by show ctx.pos + 2 + (lineCommentCopy (s.drop (ctx.pos + 2))).2 ≤ s.length; omega)
                (by show s.length - (ctx.pos + 2 + (lineCommentCopy (s.drop (ctx.pos + 2))).2) < f
                    omega)]
              show Except.ok (out ++ ['/', '/'] ++
                  (s.drop (ctx.pos + 2)).take (lineCommentCopy (s.drop (ctx.pos + 2))).2 ++
                  s.drop (ctx.pos + 2 + (lineCommentCopy (s.drop (ctx.pos + 2))).2)) = _
              rw [List.append_assoc (out ++ ['/', '/']), take_drop_glue,
                drop_cons_of_getElem? hget, drop_cons_of_getElem? hpk]
              simp [hsl, hc2l, show "//".data = ['/', '/'] from rfl]
            · have hn1 : ¬ (ch = '/' ∧ ctx.peek 1 = some '/') := by
                rintro ⟨-, hand⟩
                rw [hpk2] at hand
                exact hc2l (Option.some.inj hand)
              rw [if_neg hn1]
              by_cases hc2b : c2 = '*'
              · rw [if_pos ⟨hsl, by rw [hpk2, hc2b]⟩]
                obtain ⟨hcopy, hlen2⟩ := jsxBlockCopy_spec (s.drop (ctx.pos + 2))
                have hlen3 : (s.drop (ctx.pos + 2)).length = s.length - (ctx.pos + 2) :=
                  List.length_drop _ _
                show transpileLoop f
                    (⟨s, ctx.pos + 2 + (jsxBlockCopy (s.drop (ctx.pos + 2))).2,
                      ctx.is_typescript⟩ : ParseContext)
                    (out ++ ['/', '*'] ++ (jsxBlockCopy (s.drop (ctx.pos + 2))).1) = _
                rw [hcopy]
                rw [ih (⟨s, ctx.pos + 2 + (jsxBlockCopy (s.drop (ctx.pos + 2))).2,
                    ctx.is_typescript⟩ : ParseContext)
                  (out ++ ['/', '*'] ++
                    (s.drop (ctx.pos + 2)).take (jsxBlockCopy (s.drop (ctx.pos + 2))).2)
                  rfl
                  (by show ctx.pos + 2 + (jsxBlockCopy (s.drop (ctx.pos + 2))).2 ≤ s.length; omega)
                  (by show s.length - (ctx.pos + 2 + (jsxBlockCopy (s.drop (ctx.pos + 2))).2) < f
                      omega)]
                show Except.ok (out ++ ['/', '*'] ++
                    (s.drop (ctx.pos + 2)).take (jsxBlockCopy (s.drop (ctx.pos + 2))).2 ++
                    s.drop (ctx.pos + 2 + (jsxBlockCopy (s.drop (ctx.pos + 2))).2)) = _
                rw [List.append_assoc (out ++ ['/', '*']), take_drop_glue,
                  drop_cons_of_getElem? hget, drop_cons_of_getElem? hpk]
                simp [hsl, hc2b, show "/*".data = ['/', '*'] from rfl]
              · have hn2 : ¬ (ch = '/' ∧ ctx.peek 1 = some '*') := by
                  rintro ⟨-, hand⟩
                  rw [hpk2] at hand
                  exact hc2b (Option.some.inj hand)
                rw [if_neg hn2, if_neg (fun hand => hchlt hand.1)]
                exact hpush
          | none =>
            have hpk2 : ctx.peek 1 = none := by
              show ctx.source[ctx.pos + 1]? = none
              rw [hin]
              exact hpk
            rw [if_neg (fun hand => by rw [hpk2] at hand; exact Option.noConfusion hand.2),
              if_neg (fun hand => by rw [hpk2] at hand; exact Option.noConfusion hand.2),
              if_neg (fun hand => hchlt hand.1)]
            exact hpush
        · rw [if_neg (fun hand => hsl hand.1), if_neg (fun hand => hsl hand.1),
            if_neg (fun hand => hchlt hand.1)]
          exact hpush
    · rw [if_neg hpos]
      have hend : ctx.pos = s.length := by omega
      rw [hend, List.drop_length]
      simp

/-- The downlevel string-body loop with a non-backtick quote copies a
prefix of the remaining input verbatim, with no hypotheses on the
input text (the `?.`/`??` rewrites live only in the template
interpolation branch, unreachable for non-backtick quotes). -/
theorem dlStringLoop_verbatim (s : List Char) (q : Char) (hq : q ≠ btick) :
    ∀ fuel (st : Dl), st.input = s → st.pos ≤ s.length → s.length - st.pos < fuel →
      ∃ n, st.pos + n ≤ s.length ∧
        stringLoop fuel q st = ⟨s, st.output ++ (s.drop st.pos).take n, st.pos + n⟩ := by
  intro fuel
  induction fuel with
  | zero =>
    intro st _ _ h
    exact absurd h (by omega)
  | succ f ih =>
    intro st hin hle hfuel
    by_cases hlt : st.pos < s.length
    · cases hget : s[st.pos]? with
      | none =>
        rw [List.getElem?_eq_none_iff] at hget
        omega
      | some c =>
        have hc : st.currentChar = some c := by
          show st.input[st.pos]? = some c
          rw [hin]
          exact hget
        rw [stringLoop, if_pos (by rw [hin]; exact hlt)]
        simp only [hc]
        by_cases hesc : c = '\\' ∧ (st.peek 1).isSome
        · rw [if_pos hesc]
          obtain ⟨hc2, hpk⟩ := hesc
          subst hc2
          cases hget1 : s[st.pos + 1]? with
          | none =>
            exfalso
            have hnone : st.peek 1 = none := by
              show st.input[st.pos + 1]? = none
              rw [hin]
              exact hget1
            rw [hnone] at hpk
            simp at hpk
          | some nx =>
            have hpk1 : st.peek 1 = some nx := by
              show st.input[st.pos + 1]? = some nx
              rw [hin]
              exact hget1
            simp only [hpk1]
            obtain ⟨m, hm, hQ⟩ := ih { st with output := st.output ++ ['\\', nx], pos := st.pos + 2 }
              hin (by show st.pos + 2 ≤ s.length; have := lt_length_of_getElem? hget1; omega)
              (by show s.length - (st.pos + 2) < f; omega)
            have hm2 : st.pos + 2 + m ≤ s.length := hm
            refine ⟨2 + m, by omega, ?_⟩
            rw [hQ, take_add_two_cons hget hget1]
            simp only [Dl.mk.injEq]
            exact ⟨by trivial, by simp, by omega⟩
        · rw [if_neg hesc]
          by_cases hcq : c = q
          · rw [if_pos hcq]
            refine ⟨1, by have := lt_length_of_getElem? hget; omega, ?_⟩
            subst hcq
            rw [take_one_of_getElem? hget]
            simp only [Dl.mk.injEq]
            exact ⟨hin, by trivial, by trivial⟩
          · rw [if_neg hcq]
            rw [if_neg (show ¬ (q = btick ∧ c = '$' ∧ st.peek 1 = some '{') from
              fun h => hq h.1)]
            obtain ⟨m, hm, hQ⟩ := ih { st with output := st.output ++ [c], pos := st.pos + 1 }
              hin (by show st.pos + 1 ≤ s.length; have := lt_length_of_getElem? hget; omega)
              (by show s.length - (st.pos + 1) < f; omega)
            have hm2 : st.pos + 1 + m ≤ s.length := hm
            refine ⟨1 + m, by omega, ?_⟩
            rw [hQ, take_add_one_cons hget]
            simp only [Dl.mk.injEq]
            exact ⟨by trivial, by simp, by omega⟩
    · refine ⟨0, by omega, ?_⟩
      rw [stringLoop, if_neg (by rw [hin]; omega)]
      simp only [List.take_zero, List.append_nil, Nat.add_zero]
      rw [← hin]

/-- The stripper's string-copy loop copies a prefix of the remaining
source verbatim. -/
theorem stripStrCopy_spec (q : Char) (l : List Char) :
    (stripStrCopy q l).1 = l.take (stripStrCopy q l).2 ∧ (stripStrCopy q l).2 ≤ l.length := by
  have H : ∀ k, ∀ l : List Char, l.length ≤ k →
      (stripStrCopy q l).1 = l.take (stripStrCopy q l).2 ∧ (stripStrCopy q l).2 ≤ l.length := by
    intro k
    induction k with
    | zero =>
      intro l hl
      have : l = [] := List.eq_nil_of_length_eq_zero (by omega)
      subst this
      simp [stripStrCopy]
    | succ k ih =>
      intro l hl
      cases l with
      | nil => simp [stripStrCopy]
      | cons c rest =>
        by_cases hbs : c = '\\'
        · subst hbs
          cases rest with
          | nil => simp [stripStrCopy]
          | cons c2 rest2 =>
            have heq : stripStrCopy q ('\\' :: c2 :: rest2) =
                ('\\' :: c2 :: (stripStrCopy q rest2).1, (stripStrCopy q rest2).2 + 2) := by
              simp [stripStrCopy]
            rw [heq]
            obtain ⟨h1, h2⟩ := ih rest2 (by simp only [List.length_cons] at hl ⊢; omega)
            refine ⟨?_, ?_⟩
            · show _ = ('\\' :: c2 :: rest2).take ((stripStrCopy q rest2).2 + 1 + 1)
              rw [List.take_succ_cons, List.take_succ_cons, h1]
            · simp only [List.length_cons]
              omega
        · have heq0 : stripStrCopy q (c :: rest) =
              (if c = q then ([c], 1)
               else (c :: (stripStrCopy q rest).1, (stripStrCopy q rest).2 + 1)) := by
            have hfull : stripStrCopy q (c :: rest) =
                (if c = '\\' then
                  (match rest with
                   | [] => ([c], 1)
                   | c2 :: rest2 =>
                     (c :: c2 :: (stripStrCopy q rest2).1, (stripStrCopy q rest2).2 + 2))
                 else if c = q then ([c], 1)
                 else (c :: (stripStrCopy q rest).1, (stripStrCopy q rest).2 + 1)) := by
              rw [stripStrCopy.eq_def]
            rw [hfull, if_neg hbs]
          by_cases hcq : c = q
          · rw [heq0, if_pos hcq]
            simp
          · rw [heq0, if_neg hcq]
            obtain ⟨h1, h2⟩ := ih rest (by simp only [List.length_cons] at hl; omega)
            refine ⟨?_, ?_⟩
            · rw [List.take_succ_cons, h1]
            · simp only [List.length_cons]
              omega
  exact H l.length l (le_refl _)

/-- The stripper's block-comment copy loop copies a prefix of the
remaining source verbatim. -/
theorem stripBlockCopy_spec (l : List Char) :
    (stripBlockCopy l).1 = l.take (stripBlockCopy l).2 ∧ (stripBlockCopy l).2 ≤ l.length := by
  induction l with
  | nil => simp [stripBlockCopy]
  | cons c rest ih =>
    by_cases h : c = '*' ∧ rest.head? = some '/'
    · obtain ⟨hc, hh⟩ := h
      subst hc
      cases rest with
      | nil => simp at hh
      | cons nx rest2 =>
        simp only [List.head?_cons, Option.some.injEq] at hh
        subst hh
        refine ⟨by simp [stripBlockCopy], ?_⟩
        have h2 : (stripBlockCopy ('*' :: '/' :: rest2)).2 = 2 := by simp [stripBlockCopy]
        rw [h2]
        simp only [List.length_cons]
        omega
    · have heq : stripBlockCopy (c :: rest) =
          (c :: (stripBlockCopy rest).1, (stripBlockCopy rest).2 + 1) := by
        simp [stripBlockCopy, if_neg h]
      rw [heq]
      refine ⟨?_, ?_⟩
      · rw [List.take_succ_cons, ih.1]
      · simp only [List.length_cons]
        have := ih.2
        omega

/-! ## Symbolic-execution helpers for the JSX parse functions -/

theorem takeWhile_append_stop (p : Char → Bool) (xs : List Char) (c : Char) (ys : List Char)
    (hall : ∀ x ∈ xs, p x = true) (hc : p c = false) :
    (xs ++ c :: ys).takeWhile p = xs := by
  induction xs with
  | nil => simp [List.takeWhile_cons, hc]
  | cons a l ih =>
    have ha : p a = true := hall a (List.mem_cons_self _ _)
    simp only [List.cons_append, List.takeWhile_cons, ha, if_true]
    rw [ih (fun x hx => hall x (List.mem_cons_of_mem _ hx))]

theorem getElem_opt_of_drop {s : List Char} {p : Nat} {c : Char} {rest : List Char}
    (h : s.drop p = c :: rest) : s[p]? = some c := by
  induction s generalizing p with
  | nil => simp at h
  | cons a t ih =>
    cases p with
    | zero =>
      simp only [List.drop_zero] at h
      injection h with h1 h2
      simp [h1]
    | succ p =>
      simp only [List.drop_succ_cons] at h
      simpa using ih h

theorem drop_tail {w : List Char} {pos : Nat} {c : Char} {rest : List Char}
    (h : w.drop pos = c :: rest) : w.drop (pos + 1) = rest := by
  have h0 := drop_cons_of_getElem? (getElem_opt_of_drop h)
  rw [h0] at h
  injection h with h1 h2

/-- Evaluate `advWhile` when the remaining source splits as a run of
`p`-characters followed by a `p`-failing character. -/
theorem advWhile_eval {w : List Char} {pos : Nat} {t : Bool} (p : Char → Bool)
    {xs : List Char} {c : Char} {ys : List Char}
    (hd : w.drop pos = xs ++ c :: ys) (hall : ∀ x ∈ xs, p x = true) (hc : p c = false) :
    (⟨w, pos, t⟩ : ParseContext).advWhile p = ⟨w, pos + xs.length, t⟩ := by
  show (⟨w, pos + ((w.drop pos).takeWhile p).length, t⟩ : ParseContext) = _
  rw [hd, takeWhile_append_stop p xs c ys hall hc]

/-- `skip_whitespace` is the identity when the current character is
not whitespace. -/
theorem skip_ws_noop {w : List Char} {pos : Nat} {t : Bool} {c : Char} {rest : List Char}
    (hd : w.drop pos = c :: rest) (hc : c.isWhitespace = false) :
    ParseContext.skip_whitespace ⟨w, pos, t⟩ = ⟨w, pos, t⟩ := by
  have h := advWhile_eval (t := t) (·.isWhitespace)
    (show w.drop pos = [] ++ c :: rest from hd) (by intro x hx; simp at hx) hc
  rw [ParseContext.skip_whitespace, h]
  simp

/-- `skip_whitespace` is the identity at the end of the source. -/
theorem skip_ws_noop_end {w : List Char} {pos : Nat} {t : Bool}
    (hd : w.drop pos = []) :
    ParseContext.skip_whitespace ⟨w, pos, t⟩ = ⟨w, pos, t⟩ := by
  rw [ParseContext.skip_whitespace]
  show (⟨w, pos + ((w.drop pos).takeWhile (·.isWhitespace)).length, t⟩ : ParseContext) = _
  rw [hd]
  rfl

theorem consume_ok {w : List Char} {pos : Nat} {t : Bool} {c : Char}
    (h : w[pos]? = some c) :
    (⟨w, pos, t⟩ : ParseContext).consume c = .ok ⟨w, pos + 1, t⟩ := by
  rw [ParseContext.consume,
    if_pos (show ParseContext.currentChar ⟨w, pos, t⟩ = some c from h)]
  rfl

theorem prevWordLike_zero {w : List Char} {t : Bool} :
    prevWordLike ⟨w, 0, t⟩ = false := by
  rw [prevWordLike]
  rfl

/-- `is_jsx_start` is true at a `<` that opens an empty-name (fragment)
tag `<>`. -/
theorem is_jsx_start_fragment {w : List Char} {pos : Nat} {t : Bool} {rest : List Char}
    (hd : w.drop pos = '<' :: '>' :: rest)
    (hprev : prevWordLike ⟨w, pos, t⟩ = false) :
    is_jsx_start ⟨w, pos, t⟩ = true := by
  have h0 : w[pos]? = some '<' := getElem_opt_of_drop hd
  have hd1 : w.drop (pos + 1) = '>' :: rest := drop_tail hd
  have h1 : w[pos + 1]? = some '>' := getElem_opt_of_drop hd1
  have hcc : ParseContext.currentChar ⟨w, pos, t⟩ = some '<' := h0
  have hpk : ParseContext.peek ⟨w, pos, t⟩ 1 = some '>' := h1
  rw [is_jsx_start]
  rw [if_neg (show ¬ ParseContext.currentChar ⟨w, pos, t⟩ ≠ some '<' from fun hne => hne hcc)]
  rw [if_neg (show ¬ ParseContext.peek ⟨w, pos, t⟩ 1 = some '/' from by
    rw [hpk]; intro h2; exact absurd h2 (by decide))]
  rw [if_neg (show ¬ prevWordLike ⟨w, pos, t⟩ = true from by rw [hprev]; decide)]
  simp only [hpk]
  rw [if_neg (show ¬ ('>').isAlpha = true from by decide)]
  simp

/-- `is_jsx_start` is true at a `<` that opens a named tag whose name
runs to a `>` not followed by `(`. -/
theorem is_jsx_start_open_tag {w : List Char} {pos : Nat} {t : Bool} {t0 : Char}
    {trest : List Char} {c2 : Char} {rest : List Char}
    (hd : w.drop pos = '<' :: ((t0 :: trest) ++ '>' :: c2 :: rest))
    (hprev : prevWordLike ⟨w, pos, t⟩ = false)
    (ht0 : t0.isAlpha = true)
    (htag : ∀ c ∈ t0 :: trest, tagNameChar c = true)
    (hc2 : c2 ≠ '(') :
    is_jsx_start ⟨w, pos, t⟩ = true := by
  have h0 : w[pos]? = some '<' := getElem_opt_of_drop hd
  have hd1 : w.drop (pos + 1) = (t0 :: trest) ++ '>' :: c2 :: rest := drop_tail hd
  have h1 : w[pos + 1]? = some t0 := getElem_opt_of_drop hd1
  have hcc : ParseContext.currentChar ⟨w, pos, t⟩ = some '<' := h0
  have hpk : ParseContext.peek ⟨w, pos, t⟩ 1 = some t0 := h1
  have htw : ((⟨w, pos, t⟩ : ParseContext).source.drop
      ((⟨w, pos, t⟩ : ParseContext).pos + 1)).takeWhile tagNameChar = t0 :: trest := by
    show ((w.drop (pos + 1)).takeWhile tagNameChar) = t0 :: trest
    rw [hd1]
    exact takeWhile_append_stop _ _ _ _ htag (by decide)
  rw [is_jsx_start]
  rw [if_neg (show ¬ ParseContext.currentChar ⟨w, pos, t⟩ ≠ some '<' from fun hne => hne hcc)]
  rw [if_neg (show ¬ ParseContext.peek ⟨w, pos, t⟩ 1 = some '/' from by
    rw [hpk]
    intro h2
    injection h2 with h3
    rw [h3] at ht0
    exact absurd ht0 (by decide))]
  rw [if_neg (show ¬ prevWordLike ⟨w, pos, t⟩ = true from by rw [hprev]; decide)]
  simp only [hpk]
  rw [if_pos ht0]
  simp only [htw]
  have hdgt : w.drop (pos + (1 + (t0 :: trest).length)) = '>' :: c2 :: rest := by
    rw [show pos + (1 + (t0 :: trest).length) = pos + 1 + (t0 :: trest).length from by omega]
    rw [← List.drop_drop, hd1]
    exact List.drop_left _ _
  have hgt : w[pos + (1 + (t0 :: trest).length)]? = some '>' := getElem_opt_of_drop hdgt
  have htwws : ((⟨w, pos, t⟩ : ParseContext).source.drop
      ((⟨w, pos, t⟩ : ParseContext).pos + (1 + (t0 :: trest).length))).takeWhile
        (·.isWhitespace) = [] := by
    show ((w.drop (pos + (1 + (t0 :: trest).length))).takeWhile (·.isWhitespace)) = []
    rw [hdgt]
    rfl
  simp only [htwws]
  have hpkj : ParseContext.peek ⟨w, pos, t⟩
      (1 + (t0 :: trest).length + List.length ([] : List Char)) = some '>' := by
    show w[pos + (1 + (t0 :: trest).length + List.length ([] : List Char))]? = some '>'
    rw [show pos + (1 + (t0 :: trest).length + List.length ([] : List Char)) =
      pos + (1 + (t0 :: trest).length) from by simp]
    exact hgt
  simp only [hpkj]
  have hpkj1 : ParseContext.peek ⟨w, pos, t⟩
      (1 + (t0 :: trest).length + List.length ([] : List Char) + 1) = some c2 := by
    show w[pos + (1 + (t0 :: trest).length + List.length ([] : List Char) + 1)]? = some c2
    rw [show pos + (1 + (t0 :: trest).length + List.length ([] : List Char) + 1) =
      pos + (1 + (t0 :: trest).length) + 1 from by simp only [List.length_nil]; omega]
    exact getElem_opt_of_drop (drop_tail hdgt)
  rw [if_neg (show ¬ ParseContext.peek ⟨w, pos, t⟩
      (1 + (t0 :: trest).length + List.length ([] : List Char) + 1) = some '(' from by
    rw [hpkj1]
    intro h2
    injection h2 with h3
    exact hc2 h3)]

/-! ## Execution of the mismatched-closing-tag input -/

theorem mismatchChildren (t0 : Char) (trest close : List Char)
    (hclose : ∀ c ∈ close, tagNameChar c = true)
    (hne : close ≠ t0 :: trest) :
    ∀ f : Nat,
      childrenLoop (f + 1)
          ⟨mismatchInput t0 trest close, 1 + (t0 :: trest).length + 1, false⟩
          (t0 :: trest) [] =
        .error ("Mismatched closing tag: expected </" ++ String.mk (t0 :: trest) ++
          ">  but got </" ++ String.mk close ++ "> at position " ++
          toString ((t0 :: trest).length + close.length + 5)) := by
  intro f
  have hd0 : (mismatchInput t0 trest close).drop 0 =
      '<' :: ((t0 :: trest) ++ '>' :: '<' :: '/' :: (close ++ ['>'])) := rfl
  have hd1 : (mismatchInput t0 trest close).drop 1 =
      (t0 :: trest) ++ '>' :: '<' :: '/' :: (close ++ ['>']) := drop_tail hd0
  have hdA : (mismatchInput t0 trest close).drop (1 + (t0 :: trest).length) =
      '>' :: '<' :: '/' :: (close ++ ['>']) := by
    rw [← List.drop_drop, hd1]
    exact List.drop_left _ _
  have hdB : (mismatchInput t0 trest close).drop (1 + (t0 :: trest).length + 1) =
      '<' :: '/' :: (close ++ ['>']) := drop_tail hdA
  have hdC : (mismatchInput t0 trest close).drop (1 + (t0 :: trest).length + 1 + 1) =
      '/' :: (close ++ ['>']) := drop_tail hdB
  have hdD : (mismatchInput t0 trest close).drop (1 + (t0 :: trest).length + 1 + 1 + 1) =
      close ++ ['>'] := drop_tail hdC
  have hdE : (mismatchInput t0 trest close).drop
      (1 + (t0 :: trest).length + 1 + 1 + 1 + close.length) = ['>'] := by
    rw [← List.drop_drop, hdD]
    exact List.drop_left _ _
  have hcurr3 : (⟨mismatchInput t0 trest close, 1 + (t0 :: trest).length + 1, false⟩ :
      ParseContext).currentChar = some '<' := getElem_opt_of_drop hdB
  have hpk3 : (⟨mismatchInput t0 trest close, 1 + (t0 :: trest).length + 1, false⟩ :
      ParseContext).peek 1 = some '/' := getElem_opt_of_drop hdC
  have hadv23 : ((⟨mismatchInput t0 trest close, 1 + (t0 :: trest).length + 1, false⟩ :
      ParseContext).advance.advance).advWhile tagNameChar =
      ⟨mismatchInput t0 trest close,
        1 + (t0 :: trest).length + 1 + 1 + 1 + close.length, false⟩ := by
    show ((⟨mismatchInput t0 trest close, 1 + (t0 :: trest).length + 1 + 1 + 1, false⟩ :
      ParseContext)).advWhile tagNameChar = _
    exact advWhile_eval tagNameChar hdD hclose (by decide)
  have hslice : ParseContext.slice
      ⟨mismatchInput t0 trest close, 1 + (t0 :: trest).length + 1, false⟩
      (1 + (t0 :: trest).length + 1 + 2)
      (1 + (t0 :: trest).length + 1 + 1 + 1 + close.length) = close := by
    show ((mismatchInput t0 trest close).drop (1 + (t0 :: trest).length + 1 + 2)).take
      ((1 + (t0 :: trest).length + 1 + 1 + 1 + close.length) -
        (1 + (t0 :: trest).length + 1 + 2)) = close
    rw [show (1 + (t0 :: trest).length + 1 + 1 + 1 + close.length) -
      (1 + (t0 :: trest).length + 1 + 2) = close.length from by omega]
    rw [show 1 + (t0 :: trest).length + 1 + 2 =
      1 + (t0 :: trest).length + 1 + 1 + 1 from by omega]
    rw [hdD]
    exact List.take_left _ _
  have hwsE : ParseContext.skip_whitespace
      ⟨mismatchInput t0 trest close,
        1 + (t0 :: trest).length + 1 + 1 + 1 + close.length, false⟩ =
      ⟨mismatchInput t0 trest close,
        1 + (t0 :: trest).length + 1 + 1 + 1 + close.length, false⟩ :=
    skip_ws_noop hdE (by decide)
  have hconsE : (⟨mismatchInput t0 trest close,
      1 + (t0 :: trest).length + 1 + 1 + 1 + close.length, false⟩ :
      ParseContext).consume '>' =
      .ok ⟨mismatchInput t0 trest close,
        1 + (t0 :: trest).length + 1 + 1 + 1 + close.length + 1, false⟩ :=
    consume_ok (getElem_opt_of_drop hdE)
  rw [childrenLoop]
  simp only [skip_ws_noop hdB (by decide)]
  rw [if_pos ⟨hcurr3, hpk3⟩]
  simp only [hadv23, hslice, hwsE, hconsE]
  rw [if_pos ⟨(by simp : (t0 :: trest) ≠ []), (hne : close ≠ t0 :: trest)⟩]
  rw [show 1 + (t0 :: trest).length + 1 + 1 + 1 + close.length + 1 =
    (t0 :: trest).length + close.length + 5 from by omega]

theorem mismatchParse (t0 : Char) (trest close : List Char)
    (ht0 : t0.isAlpha = true)
    (htag : ∀ c ∈ t0 :: trest, tagNameChar c = true)
    (hclose : ∀ c ∈ close, tagNameChar c = true)
    (hne : close ≠ t0 :: trest) :
    ∀ f : Nat,
      parseJsxElement (f + 2) ⟨mismatchInput t0 trest close, 0, false⟩ =
        .error ("Mismatched closing tag: expected </" ++ String.mk (t0 :: trest) ++
          ">  but got </" ++ String.mk close ++ "> at position " ++
          toString ((t0 :: trest).length + close.length + 5)) := by
  intro f
  have hd0 : (mismatchInput t0 trest close).drop 0 =
      '<' :: ((t0 :: trest) ++ '>' :: '<' :: '/' :: (close ++ ['>'])) := rfl
  have hd1 : (mismatchInput t0 trest close).drop 1 =
      (t0 :: trest) ++ '>' :: '<' :: '/' :: (close ++ ['>']) := drop_tail hd0
  have hdA : (mismatchInput t0 trest close).drop (1 + (t0 :: trest).length) =
      '>' :: '<' :: '/' :: (close ++ ['>']) := by
    rw [← List.drop_drop, hd1]
    exact List.drop_left _ _
  have hc0 : (⟨mismatchInput t0 trest close, 0, false⟩ : ParseContext).consume '<' =
      .ok ⟨mismatchInput t0 trest close, 1, false⟩ :=
    consume_ok (getElem_opt_of_drop hd0)
  have hcc1 : (⟨mismatchInput t0 trest close, 1, false⟩ : ParseContext).currentChar =
      some t0 := getElem_opt_of_drop hd1
  have hadv1 : (⟨mismatchInput t0 trest close, 1, false⟩ : ParseContext).advWhile
      tagNameChar = ⟨mismatchInput t0 trest close, 1 + (t0 :: trest).length, false⟩ :=
    advWhile_eval tagNameChar hd1 htag (by decide)
  have hsliceTag : ParseContext.slice ⟨mismatchInput t0 trest close, 1, false⟩ 1
      (1 + (t0 :: trest).length) = t0 :: trest := by
    show ((mismatchInput t0 trest close).drop 1).take ((1 + (t0 :: trest).length) - 1) = _
    rw [show (1 + (t0 :: trest).length) - 1 = (t0 :: trest).length from by omega, hd1]
    exact List.take_left _ _
  have hwsA : ParseContext.skip_whitespace
      ⟨mismatchInput t0 trest close, 1 + (t0 :: trest).length, false⟩ =
      ⟨mismatchInput t0 trest close, 1 + (t0 :: trest).length, false⟩ :=
    skip_ws_noop hdA (by decide)
  have hcurrA : (⟨mismatchInput t0 trest close, 1 + (t0 :: trest).length, false⟩ :
      ParseContext).currentChar = some '>' := getElem_opt_of_drop hdA
  have hprops : propsLoop (f + 1)
      ⟨mismatchInput t0 trest close, 1 + (t0 :: trest).length, false⟩ [] =
      .ok ([], ⟨mismatchInput t0 trest close, 1 + (t0 :: trest).length, false⟩) := by
    rw [propsLoop]
    rw [if_neg (show ¬ ((⟨mismatchInput t0 trest close, 1 + (t0 :: trest).length, false⟩ :
      ParseContext).currentChar ≠ some '>' ∧
      (⟨mismatchInput t0 trest close, 1 + (t0 :: trest).length, false⟩ :
        ParseContext).currentChar ≠ some '/') from fun hand => hand.1 hcurrA)]
  have hconsA : (⟨mismatchInput t0 trest close, 1 + (t0 :: trest).length, false⟩ :
      ParseContext).consume '>' =
      .ok ⟨mismatchInput t0 trest close, 1 + (t0 :: trest).length + 1, false⟩ :=
    consume_ok (getElem_opt_of_drop hdA)
  show parseJsxElement ((f + 1) + 1) ⟨mismatchInput t0 trest close, 0, false⟩ = _
  rw [parseJsxElement]
  simp only [hc0]
  rw [if_neg (show ¬ (⟨mismatchInput t0 trest close, 1, false⟩ :
      ParseContext).currentChar = some '>' from by
    rw [hcc1]
    intro h
    injection h with h2
    rw [h2] at ht0
    exact absurd ht0 (by decide))]
  rw [if_neg (show ¬ (⟨mismatchInput t0 trest close, 1, false⟩ :
      ParseContext).currentChar = some '/' from by
    rw [hcc1]
    intro h
    injection h with h2
    rw [h2] at ht0
    exact absurd ht0 (by decide))]
  simp only [hadv1, hsliceTag, hwsA, hprops, hconsA]
  rw [if_neg (show ¬ (⟨mismatchInput t0 trest close, 1 + (t0 :: trest).length, false⟩ :
      ParseContext).currentChar = some '/' from by
    rw [hcurrA]
    intro h
    injection h with h2
    exact absurd h2 (by decide))]
  simp only [hconsA, mismatchChildren t0 trest close hclose hne f]

theorem mismatchSkip (t0 : Char) (trest close : List Char)
    (ht0 : t0.isAlpha = true)
    (htag : ∀ c ∈ t0 :: trest, tagNameChar c = true)
    (hclose : ∀ c ∈ close, tagNameChar c = true) :
    ∀ f : Nat,
      skip_jsx_element (f + 2) ⟨mismatchInput t0 trest close, 0, false⟩ =
        .ok ⟨mismatchInput t0 trest close,
          1 + (t0 :: trest).length + 1 + 1 + 1 + close.length + 1, false⟩ := by
  intro f
  have hd0 : (mismatchInput t0 trest close).drop 0 =
      '<' :: ((t0 :: trest) ++ '>' :: '<' :: '/' :: (close ++ ['>'])) := rfl
  have hd1 : (mismatchInput t0 trest close).drop 1 =
      (t0 :: trest) ++ '>' :: '<' :: '/' :: (close ++ ['>']) := drop_tail hd0
  have hdA : (mismatchInput t0 trest close).drop (1 + (t0 :: trest).length) =
      '>' :: '<' :: '/' :: (close ++ ['>']) := by
    rw [← List.drop_drop, hd1]
    exact List.drop_left _ _
  have hdB : (mismatchInput t0 trest close).drop (1 + (t0 :: trest).length + 1) =
      '<' :: '/' :: (close ++ ['>']) := drop_tail hdA
  have hdC : (mismatchInput t0 trest close).drop (1 + (t0 :: trest).length + 1 + 1) =
      '/' :: (close ++ ['>']) := drop_tail hdB
  have hdD : (mismatchInput t0 trest close).drop (1 + (t0 :: trest).length + 1 + 1 + 1) =
      close ++ ['>'] := drop_tail hdC
  have hdE : (mismatchInput t0 trest close).drop
      (1 + (t0 :: trest).length + 1 + 1 + 1 + close.length) = ['>'] := by
    rw [← List.drop_drop, hdD]
    exact List.drop_left _ _
  have hc0 : (⟨mismatchInput t0 trest close, 0, false⟩ : ParseContext).consume '<' =
      .ok ⟨mismatchInput t0 trest close, 1, false⟩ :=
    consume_ok (getElem_opt_of_drop hd0)
  have hcc1 : (⟨mismatchInput t0 trest close, 1, false⟩ : ParseContext).currentChar =
      some t0 := getElem_opt_of_drop hd1
  have hadv1 : (⟨mismatchInput t0 trest close, 1, false⟩ : ParseContext).advWhile
      tagNameChar = ⟨mismatchInput t0 trest close, 1 + (t0 :: trest).length, false⟩ :=
    advWhile_eval tagNameChar hd1 htag (by decide)
  have hcurrA : (⟨mismatchInput t0 trest close, 1 + (t0 :: trest).length, false⟩ :
      ParseContext).currentChar = some '>' := getElem_opt_of_drop hdA
  have hprops : skipPropsLoop (f + 1)
      ⟨mismatchInput t0 trest close, 1 + (t0 :: trest).length, false⟩ =
      .ok ⟨mismatchInput t0 trest close, 1 + (t0 :: trest).length, false⟩ := by
    rw [skipPropsLoop]
    rw [if_neg (show ¬ ((⟨mismatchInput t0 trest close, 1 + (t0 :: trest).length, false⟩ :
      ParseContext).currentChar ≠ some '>' ∧
      (⟨mismatchInput t0 trest close, 1 + (t0 :: trest).length, false⟩ :
        ParseContext).currentChar ≠ some '/') from fun hand => hand.1 hcurrA)]
  have hconsA : (⟨mismatchInput t0 trest close, 1 + (t0 :: trest).length, false⟩ :
      ParseContext).consume '>' =
      .ok ⟨mismatchInput t0 trest close, 1 + (t0 :: trest).length + 1, false⟩ :=
    consume_ok (getElem_opt_of_drop hdA)
  have hcurr3 : (⟨mismatchInput t0 trest close, 1 + (t0 :: trest).length + 1, false⟩ :
      ParseContext).currentChar = some '<' := getElem_opt_of_drop hdB
  have hpk3 : (⟨mismatchInput t0 trest close, 1 + (t0 :: trest).length + 1, false⟩ :
      ParseContext).peek 1 = some '/' := getElem_opt_of_drop hdC
  have hadv23 : ((⟨mismatchInput t0 trest close, 1 + (t0 :: trest).length + 1, false⟩ :
      ParseContext).advance.advance).advWhile tagNameChar =
      ⟨mismatchInput t0 trest close,
        1 + (t0 :: trest).length + 1 + 1 + 1 + close.length, false⟩ := by
    show ((⟨mismatchInput t0 trest close, 1 + (t0 :: trest).length + 1 + 1 + 1, false⟩ :
      ParseContext)).advWhile tagNameChar = _
    exact advWhile_eval tagNameChar hdD hclose (by decide)
  have hwsE : ParseContext.skip_whitespace
      ⟨mismatchInput t0 trest close,
        1 + (t0 :: trest).length + 1 + 1 + 1 + close.length, false⟩ =
      ⟨mismatchInput t0 trest close,
        1 + (t0 :: trest).length + 1 + 1 + 1 + close.length, false⟩ :=
    skip_ws_noop hdE (by decide)
  have hconsE : (⟨mismatchInput t0 trest close,
      1 + (t0 :: trest).length + 1 + 1 + 1 + close.length, false⟩ :
      ParseContext).consume '>' =
      .ok ⟨mismatchInput t0 trest close,
        1 + (t0 :: trest).length + 1 + 1 + 1 + close.length + 1, false⟩ :=
    consume_ok (getElem_opt_of_drop hdE)
  have hchildskip : ∀ tn, skip_jsx_children (f + 1)
      ⟨mismatchInput t0 trest close, 1 + (t0 :: trest).length + 1, false⟩ tn =
      .ok ⟨mismatchInput t0 trest close,
        1 + (t0 :: trest).length + 1 + 1 + 1 + close.length + 1, false⟩ := by
    intro tn
    rw [skip_jsx_children]
    simp only [skip_ws_noop hdB (by decide)]
    rw [if_pos ⟨hcurr3, hpk3⟩]
    simp only [hadv23, hwsE, hconsE]
  show skip_jsx_element ((f + 1) + 1) ⟨mismatchInput t0 trest close, 0, false⟩ = _
  rw [skip_jsx_element]
  simp only [hc0]
  rw [if_neg (show ¬ (⟨mismatchInput t0 trest close, 1, false⟩ :
      ParseContext).currentChar = some '>' from by
    rw [hcc1]
    intro h
    injection h with h2
    rw [h2] at ht0
    exact absurd ht0 (by decide))]
  simp only [hadv1, hprops]
  rw [if_neg (show ¬ (⟨mismatchInput t0 trest close, 1 + (t0 :: trest).length, false⟩ :
      ParseContext).currentChar = some '/' from by
    rw [hcurrA]
    intro h
    injection h with h2
    exact absurd h2 (by decide))]
  simp only [hconsA, hchildskip]

theorem mismatchCheck (t0 : Char) (trest close : List Char)
    (ht0 : t0.isAlpha = true)
    (htag : ∀ c ∈ t0 :: trest, tagNameChar c = true)
    (hclose : ∀ c ∈ close, tagNameChar c = true) :
    ∀ f : Nat, checkLoop (f + 3) ⟨mismatchInput t0 trest close, 0, false⟩ = .ok () := by
  intro f
  have hd0 : (mismatchInput t0 trest close).drop 0 =
      '<' :: ((t0 :: trest) ++ '>' :: '<' :: '/' :: (close ++ ['>'])) := rfl
  have hlen : (mismatchInput t0 trest close).length =
      (t0 :: trest).length + close.length + 5 := by
    simp only [mismatchInput, List.length_cons, List.length_append, List.length_nil]
    omega
  have hcc0 : (⟨mismatchInput t0 trest close, 0, false⟩ : ParseContext).currentChar =
      some '<' := getElem_opt_of_drop hd0
  have hjsx : is_jsx_start ⟨mismatchInput t0 trest close, 0, false⟩ = true :=
    is_jsx_start_open_tag hd0 prevWordLike_zero ht0 htag (by decide)
  show checkLoop ((f + 2) + 1) ⟨mismatchInput t0 trest close, 0, false⟩ = _
  rw [checkLoop]
  rw [if_neg (show ¬ ((⟨mismatchInput t0 trest close, 0, false⟩ :
      ParseContext).source.length ≤ (⟨mismatchInput t0 trest close, 0, false⟩ :
      ParseContext).pos) from by
    show ¬ ((mismatchInput t0 trest close).length ≤ 0)
    rw [hlen]
    omega)]
  simp only [hcc0]
  rw [if_neg (show ¬ ('<' = '"' ∨ '<' = squote ∨ '<' = btick) from by decide)]
  rw [if_neg (show ¬ ('<' = '/' ∧ (⟨mismatchInput t0 trest close, 0, false⟩ :
    ParseContext).peek 1 = some '/') from fun hand => absurd hand.1 (by decide))]
  rw [if_neg (show ¬ ('<' = '/' ∧ (⟨mismatchInput t0 trest close, 0, false⟩ :
    ParseContext).peek 1 = some '*') from fun hand => absurd hand.1 (by decide))]
  rw [if_pos (show True ∧ is_jsx_start ⟨mismatchInput t0 trest close, 0, false⟩ = true
    from ⟨trivial, hjsx⟩)]
  simp only [mismatchSkip t0 trest close ht0 htag hclose f]
  show checkLoop ((f + 1) + 1) _ = _
  rw [checkLoop]
  rw [if_pos (show (⟨mismatchInput t0 trest close,
      1 + (t0 :: trest).length + 1 + 1 + 1 + close.length + 1, false⟩ :
      ParseContext).source.length ≤ (⟨mismatchInput t0 trest close,
      1 + (t0 :: trest).length + 1 + 1 + 1 + close.length + 1, false⟩ :
      ParseContext).pos from by
    show (mismatchInput t0 trest close).length ≤
      1 + (t0 :: trest).length + 1 + 1 + 1 + close.length + 1
    rw [hlen]
    omega)]

/-! ## Execution of the fragment inputs -/

theorem fragmentX_result (close : List Char) (hclose : ∀ c ∈ close, tagNameChar c = true) :
    transpile_jsx (String.mk (fragInputX close)) false =
      .ok "__hook_jsx_runtime.jsx(\x27div\x27, \x7b children: [\"X\"] \x7d)" := by
  have hlen : (fragInputX close).length = close.length + 6 := by
    simp only [fragInputX, List.length_cons, List.length_append, List.length_nil]
  have hd0 : (fragInputX close).drop 0 =
      '<' :: '>' :: 'X' :: '<' :: '/' :: (close ++ ['>']) := rfl
  have hd1 : (fragInputX close).drop 1 = '>' :: 'X' :: '<' :: '/' :: (close ++ ['>']) := rfl
  have hd2 : (fragInputX close).drop 2 = 'X' :: '<' :: '/' :: (close ++ ['>']) := rfl
  have hd3 : (fragInputX close).drop 3 = '<' :: '/' :: (close ++ ['>']) := rfl
  have hd4 : (fragInputX close).drop 4 = '/' :: (close ++ ['>']) := rfl
  have hd5 : (fragInputX close).drop 5 = close ++ ['>'] := rfl
  have hdE : (fragInputX close).drop (5 + close.length) = ['>'] := by
    rw [← List.drop_drop, hd5]
    exact List.drop_left _ _
  have hcc0 : (⟨fragInputX close, 0, false⟩ : ParseContext).currentChar = some '<' :=
    getElem_opt_of_drop hd0
  have hcc1 : (⟨fragInputX close, 1, false⟩ : ParseContext).currentChar = some '>' :=
    getElem_opt_of_drop hd1
  have hcc2 : (⟨fragInputX close, 2, false⟩ : ParseContext).currentChar = some 'X' :=
    getElem_opt_of_drop hd2
  have hcc3 : (⟨fragInputX close, 3, false⟩ : ParseContext).currentChar = some '<' :=
    getElem_opt_of_drop hd3
  have hpk3 : (⟨fragInputX close, 3, false⟩ : ParseContext).peek 1 = some '/' :=
    getElem_opt_of_drop hd4
  have hjsx : is_jsx_start ⟨fragInputX close, 0, false⟩ = true :=
    is_jsx_start_fragment hd0 prevWordLike_zero
  have hc0 : (⟨fragInputX close, 0, false⟩ : ParseContext).consume '<' =
      .ok ⟨fragInputX close, 1, false⟩ := consume_ok (getElem_opt_of_drop hd0)
  have hadv2 : (⟨fragInputX close, 2, false⟩ : ParseContext).advWhile
      (fun c => c ≠ '<' ∧ c ≠ '{') = ⟨fragInputX close, 3, false⟩ :=
    advWhile_eval _ (show (fragInputX close).drop 2 =
      ['X'] ++ '<' :: '/' :: (close ++ ['>']) from hd2) (by decide) (by decide)
  have hadv23 : ((⟨fragInputX close, 3, false⟩ : ParseContext).advance.advance).advWhile
      tagNameChar = ⟨fragInputX close, 5 + close.length, false⟩ := by
    show ((⟨fragInputX close, 5, false⟩ : ParseContext)).advWhile tagNameChar = _
    exact advWhile_eval tagNameChar hd5 hclose (by decide)
  have hwsE : ParseContext.skip_whitespace ⟨fragInputX close, 5 + close.length, false⟩ =
      ⟨fragInputX close, 5 + close.length, false⟩ := skip_ws_noop hdE (by decide)
  have hconsE : (⟨fragInputX close, 5 + close.length, false⟩ : ParseContext).consume '>' =
      .ok ⟨fragInputX close, 5 + close.length + 1, false⟩ :=
    consume_ok (getElem_opt_of_drop hdE)
  have hchildcont : ∀ (g : Nat) (ch : List (List Char)),
      childrenLoop (g + 1) ⟨fragInputX close, 3, false⟩ [] ch =
        .ok (ch, ⟨fragInputX close, 5 + close.length + 1, false⟩) := by
    intro g ch
    rw [childrenLoop]
    simp only [skip_ws_noop hd3 (by decide)]
    rw [if_pos ⟨hcc3, hpk3⟩]
    simp only [hadv23, hwsE, hconsE]
    rw [if_neg (show ¬ (([] : List Char) ≠ [] ∧
      ParseContext.slice ⟨fragInputX close, 3, false⟩ (3 + 2) (5 + close.length) ≠ []) from
      fun hand => hand.1 rfl)]
  have hchildX : ∀ f : Nat, childrenLoop (f + 2) ⟨fragInputX close, 2, false⟩ [] [] =
      .ok ([['"', 'X', '"']], ⟨fragInputX close, 5 + close.length + 1, false⟩) := by
    intro f
    show childrenLoop ((f + 1) + 1) ⟨fragInputX close, 2, false⟩ [] [] = _
    rw [childrenLoop]
    simp only [skip_ws_noop hd2 (by decide)]
    rw [if_neg (show ¬ ((⟨fragInputX close, 2, false⟩ : ParseContext).currentChar =
        some '<' ∧ (⟨fragInputX close, 2, false⟩ : ParseContext).peek 1 = some '/') from by
      rintro ⟨hand, -⟩
      rw [hcc2] at hand
      injection hand with h2
      exact absurd h2 (by decide))]
    rw [if_neg (show ¬ ((⟨fragInputX close, 2, false⟩ : ParseContext).currentChar =
        some '<' ∧ is_jsx_start ⟨fragInputX close, 2, false⟩ = true) from by
      rintro ⟨hand, -⟩
      rw [hcc2] at hand
      injection hand with h2
      exact absurd h2 (by decide))]
    rw [if_neg (show ¬ ((⟨fragInputX close, 2, false⟩ : ParseContext).currentChar =
        some '{') from by
      rw [hcc2]
      intro hand
      injection hand with h2
      exact absurd h2 (by decide))]
    simp only [hadv2]
    simp only [show ParseContext.slice ⟨fragInputX close, 2, false⟩ 2
        (⟨fragInputX close, 3, false⟩ : ParseContext).pos = ['X'] from by
      show ((fragInputX close).drop 2).take (3 - 2) = ['X']
      rw [hd2]
      rfl]
    simp only [show trimL ['X'] = ['X'] from rfl]
    rw [if_pos (show (['X'] : List Char) ≠ [] from by decide)]
    rw [if_neg (show ¬ ((⟨fragInputX close, 3, false⟩ : ParseContext).pos = 2) from
      fun h => absurd (show (3 : Nat) = 2 from h) (by decide))]
    simp only [show (([] : List (List Char)) ++
      [['"'] ++ escape_string ['X'] ++ ['"']]) = [['"', 'X', '"']] from rfl]
    exact hchildcont f [['"', 'X', '"']]
  have hfragX : ∀ f : Nat, parseFragment (f + 3) ⟨fragInputX close, 2, false⟩ =
      .ok ("__hook_jsx_runtime.jsx(\x27div\x27, \x7b children: [".data ++
        joinSep ", ".data [['"', 'X', '"']] ++ "] \x7d)".data,
        ⟨fragInputX close, 5 + close.length + 1, false⟩) := by
    intro f
    show parseFragment ((f + 2) + 1) ⟨fragInputX close, 2, false⟩ = _
    rw [parseFragment]
    simp only [hchildX f]
    rw [if_neg (show ¬ (([['"', 'X', '"']] : List (List Char)).isEmpty = true) from by decide)]
  have hparseX : ∀ f : Nat, parseJsxElement (f + 4) ⟨fragInputX close, 0, false⟩ =
      .ok ("__hook_jsx_runtime.jsx(\x27div\x27, \x7b children: [".data ++
        joinSep ", ".data [['"', 'X', '"']] ++ "] \x7d)".data,
        ⟨fragInputX close, 5 + close.length + 1, false⟩) := by
    intro f
    show parseJsxElement ((f + 3) + 1) ⟨fragInputX close, 0, false⟩ = _
    rw [parseJsxElement]
    simp only [hc0]
    rw [if_pos hcc1]
    simp only [show ParseContext.advance ⟨fragInputX close, 1, false⟩ =
      ⟨fragInputX close, 2, false⟩ from rfl]
    exact hfragX f
  have htlX : ∀ K : Nat, transpileLoop (K + 5) ⟨fragInputX close, 0, false⟩ [] =
      .ok (([] : List Char) ++ ("__hook_jsx_runtime.jsx(\x27div\x27, \x7b children: [".data ++
        joinSep ", ".data [['"', 'X', '"']] ++ "] \x7d)".data)) := by
    intro K
    show transpileLoop ((K + 4) + 1) ⟨fragInputX close, 0, false⟩ [] = _
    rw [transpileLoop]
    rw [if_pos (show (⟨fragInputX close, 0, false⟩ : ParseContext).pos <
        (⟨fragInputX close, 0, false⟩ : ParseContext).source.length from by
      show (0 : Nat) < (fragInputX close).length
      omega)]
    simp only [hcc0]
    rw [if_neg (show ¬ ('<' = '"' ∨ '<' = squote ∨ '<' = btick) from by decide)]
    rw [if_neg (show ¬ ('<' = '/' ∧ (⟨fragInputX close, 0, false⟩ :
      ParseContext).peek 1 = some '/') from fun hand => absurd hand.1 (by decide))]
    rw [if_neg (show ¬ ('<' = '/' ∧ (⟨fragInputX close, 0, false⟩ :
      ParseContext).peek 1 = some '*') from fun hand => absurd hand.1 (by decide))]
    rw [if_pos (show True ∧ is_jsx_start ⟨fragInputX close, 0, false⟩ = true
      from ⟨trivial, hjsx⟩)]
    simp only [hparseX K]
    show transpileLoop ((K + 3) + 1) ⟨fragInputX close, 5 + close.length + 1, false⟩ _ = _
    rw [transpileLoop]
    rw [if_neg (show ¬ ((⟨fragInputX close, 5 + close.length + 1, false⟩ :
        ParseContext).pos < (⟨fragInputX close, 5 + close.length + 1, false⟩ :
        ParseContext).source.length) from by
      show ¬ (5 + close.length + 1 < (fragInputX close).length)
      omega)]
  have hskipchX : ∀ (g : Nat) (tn : List Char),
      skip_jsx_children (g + 2) ⟨fragInputX close, 2, false⟩ tn =
        .ok ⟨fragInputX close, 5 + close.length + 1, false⟩ := by
    intro g tn
    show skip_jsx_children ((g + 1) + 1) ⟨fragInputX close, 2, false⟩ tn = _
    rw [skip_jsx_children]
    simp only [skip_ws_noop hd2 (by decide)]
    rw [if_neg (show ¬ ((⟨fragInputX close, 2, false⟩ : ParseContext).currentChar =
        some '<' ∧ (⟨fragInputX close, 2, false⟩ : ParseContext).peek 1 = some '/') from by
      rintro ⟨hand, -⟩
      rw [hcc2] at hand
      injection hand with h2
      exact absurd h2 (by decide))]
    rw [if_neg (show ¬ ((⟨fragInputX close, 2, false⟩ : ParseContext).currentChar =
        some '<') from by
      rw [hcc2]
      intro hand
      injection hand with h2
      exact absurd h2 (by decide))]
    rw [if_neg (show ¬ ((⟨fragInputX close, 2, false⟩ : ParseContext).currentChar =
        some '{') from by
      rw [hcc2]
      intro hand
      injection hand with h2
      exact absurd h2 (by decide))]
    simp only [hadv2]
    rw [if_neg (show ¬ ((⟨fragInputX close, 2, false⟩ : ParseContext).source.length ≤
        (⟨fragInputX close, 3, false⟩ : ParseContext).pos) from by
      show ¬ ((fragInputX close).length ≤ 3)
      omega)]
    rw [skip_jsx_children]
    simp only [skip_ws_noop hd3 (by decide)]
    rw [if_pos ⟨hcc3, hpk3⟩]
    simp only [hadv23, hwsE, hconsE]
  have hskipX : ∀ f : Nat, skip_jsx_element (f + 3) ⟨fragInputX close, 0, false⟩ =
      .ok ⟨fragInputX close, 5 + close.length + 1, false⟩ := by
    intro f
    show skip_jsx_element ((f + 2) + 1) ⟨fragInputX close, 0, false⟩ = _
    rw [skip_jsx_element]
    simp only [hc0]
    rw [if_pos hcc1]
    simp only [show ParseContext.advance ⟨fragInputX close, 1, false⟩ =
      ⟨fragInputX close, 2, false⟩ from rfl]
    exact hskipchX f []
  have hcheckX : ∀ f : Nat, checkLoop (f + 4) ⟨fragInputX close, 0, false⟩ = .ok () := by
    intro f
    show checkLoop ((f + 3) + 1) ⟨fragInputX close, 0, false⟩ = _
    rw [checkLoop]
    rw [if_neg (show ¬ ((⟨fragInputX close, 0, false⟩ :
        ParseContext).source.length ≤ (⟨fragInputX close, 0, false⟩ :
        ParseContext).pos) from by
      show ¬ ((fragInputX close).length ≤ 0)
      omega)]
    simp only [hcc0]
    rw [if_neg (show ¬ ('<' = '"' ∨ '<' = squote ∨ '<' = btick) from by decide)]
    rw [if_neg (show ¬ ('<' = '/' ∧ (⟨fragInputX close, 0, false⟩ :
      ParseContext).peek 1 = some '/') from fun hand => absurd hand.1 (by decide))]
    rw [if_neg (show ¬ ('<' = '/' ∧ (⟨fragInputX close, 0, false⟩ :
      ParseContext).peek 1 = some '*') from fun hand => absurd hand.1 (by decide))]
    rw [if_pos (show True ∧ is_jsx_start ⟨fragInputX close, 0, false⟩ = true
      from ⟨trivial, hjsx⟩)]
    simp only [hskipX f]
    show checkLoop ((f + 2) + 1) _ = _
    rw [checkLoop]
    rw [if_pos (show (⟨fragInputX close, 5 + close.length + 1, false⟩ :
        ParseContext).source.length ≤ (⟨fragInputX close, 5 + close.length + 1, false⟩ :
        ParseContext).pos from by
      show (fragInputX close).length ≤ 5 + close.length + 1
      omega)]
  have hchk : check_for_typescript_syntax (fragInputX close) = .ok () := by
    rw [ check_for_typescript_syntax]
    rw [show 2 * (fragInputX close).length + 16 =
      (2 * (fragInputX close).length + 12) + 4 from by omega]
    exact hcheckX _
  have hfuel : (fragInputX close).length + 4 ≤
      ((fragInputX close).length + 4) * ((fragInputX close).length + 4) :=
    Nat.le_mul_of_pos_left _ (by omega)
  show transpile_jsx (String.mk (fragInputX close)) false = _
  simp only [transpile_jsx]
  rw [show ((String.mk (fragInputX close)).data.length + 4) *
      ((String.mk (fragInputX close)).data.length + 4) =
      (((fragInputX close).length + 4) *
        ((fragInputX close).length + 4) - 6 + 5) + 1 from by
    show ((fragInputX close).length + 4) * ((fragInputX close).length + 4) = _
    omega]
  rw [transpileJsxF]
  rw [if_neg (show ¬ (false = true) from by decide)]
  rw [hchk]
  rw [htlX (((fragInputX close).length + 4) * ((fragInputX close).length + 4) - 6)]
  rfl

theorem fragmentE_result (close : List Char) (hclose : ∀ c ∈ close, tagNameChar c = true) :
    transpile_jsx (String.mk (fragInputE close)) false =
      .ok "__hook_jsx_runtime.jsx(\x27div\x27, \x7b\x7d)" := by
  have hlen : (fragInputE close).length = close.length + 5 := by
    simp only [fragInputE, List.length_cons, List.length_append, List.length_nil]
  have hd0 : (fragInputE close).drop 0 = '<' :: '>' :: '<' :: '/' :: (close ++ ['>']) := rfl
  have hd1 : (fragInputE close).drop 1 = '>' :: '<' :: '/' :: (close ++ ['>']) := rfl
  have hd2 : (fragInputE close).drop 2 = '<' :: '/' :: (close ++ ['>']) := rfl
  have hd3 : (fragInputE close).drop 3 = '/' :: (close ++ ['>']) := rfl
  have hd4 : (fragInputE close).drop 4 = close ++ ['>'] := rfl
  have hdE : (fragInputE close).drop (4 + close.length) = ['>'] := by
    rw [← List.drop_drop, hd4]
    exact List.drop_left _ _
  have hcc0 : (⟨fragInputE close, 0, false⟩ : ParseContext).currentChar = some '<' :=
    getElem_opt_of_drop hd0
  have hcc1 : (⟨fragInputE close, 1, false⟩ : ParseContext).currentChar = some '>' :=
    getElem_opt_of_drop hd1
  have hcc2 : (⟨fragInputE close, 2, false⟩ : ParseContext).currentChar = some '<' :=
    getElem_opt_of_drop hd2
  have hpk2 : (⟨fragInputE close, 2, false⟩ : ParseContext).peek 1 = some '/' :=
    getElem_opt_of_drop hd3
  have hjsx : is_jsx_start ⟨fragInputE close, 0, false⟩ = true :=
    is_jsx_start_fragment hd0 prevWordLike_zero
  have hc0 : (⟨fragInputE close, 0, false⟩ : ParseContext).consume '<' =
      .ok ⟨fragInputE close, 1, false⟩ := consume_ok (getElem_opt_of_drop hd0)
  have hadv23 : ((⟨fragInputE close, 2, false⟩ : ParseContext).advance.advance).advWhile
      tagNameChar = ⟨fragInputE close, 4 + close.length, false⟩ := by
    show ((⟨fragInputE close, 4, false⟩ : ParseContext)).advWhile tagNameChar = _
    exact advWhile_eval tagNameChar hd4 hclose (by decide)
  have hwsE : ParseContext.skip_whitespace ⟨fragInputE close, 4 + close.length, false⟩ =
      ⟨fragInputE close, 4 + close.length, false⟩ := skip_ws_noop hdE (by decide)
  have hconsE : (⟨fragInputE close, 4 + close.length, false⟩ : ParseContext).consume '>' =
      .ok ⟨fragInputE close, 4 + close.length + 1, false⟩ :=
    consume_ok (getElem_opt_of_drop hdE)
  have hchildE : ∀ (g : Nat) (ch : List (List Char)),
      childrenLoop (g + 1) ⟨fragInputE close, 2, false⟩ [] ch =
        .ok (ch, ⟨fragInputE close, 4 + close.length + 1, false⟩) := by
    intro g ch
    rw [childrenLoop]
    simp only [skip_ws_noop hd2 (by decide)]
    rw [if_pos ⟨hcc2, hpk2⟩]
    simp only [hadv23, hwsE, hconsE]
    rw [if_neg (show ¬ (([] : List Char) ≠ [] ∧
      ParseContext.slice ⟨fragInputE close, 2, false⟩ (2 + 2) (4 + close.length) ≠ []) from
      fun hand => hand.1 rfl)]
  have hfragE : ∀ f : Nat, parseFragment (f + 2) ⟨fragInputE close, 2, false⟩ =
      .ok ("__hook_jsx_runtime.jsx(\x27div\x27, \x7b\x7d)".data,
        ⟨fragInputE close, 4 + close.length + 1, false⟩) := by
    intro f
    show parseFragment ((f + 1) + 1) ⟨fragInputE close, 2, false⟩ = _
    rw [parseFragment]
    simp only [hchildE f []]
    rw [if_pos (show (([] : List (List Char)).isEmpty = true) from by decide)]
  have hparseE : ∀ f : Nat, parseJsxElement (f + 3) ⟨fragInputE close, 0, false⟩ =
      .ok ("__hook_jsx_runtime.jsx(\x27div\x27, \x7b\x7d)".data,
        ⟨fragInputE close, 4 + close.length + 1, false⟩) := by
    intro f
    show parseJsxElement ((f + 2) + 1) ⟨fragInputE close, 0, false⟩ = _
    rw [parseJsxElement]
    simp only [hc0]
    rw [if_pos hcc1]
    simp only [show ParseContext.advance ⟨fragInputE close, 1, false⟩ =
      ⟨fragInputE close, 2, false⟩ from rfl]
    exact hfragE f
  have htlE : ∀ K : Nat, transpileLoop (K + 4) ⟨fragInputE close, 0, false⟩ [] =
      .ok (([] : List Char) ++ "__hook_jsx_runtime.jsx(\x27div\x27, \x7b\x7d)".data) := by
    intro K
    show transpileLoop ((K + 3) + 1) ⟨fragInputE close, 0, false⟩ [] = _
    rw [transpileLoop]
    rw [if_pos (show (⟨fragInputE close, 0, false⟩ : ParseContext).pos <
        (⟨fragInputE close, 0, false⟩ : ParseContext).source.length from by
      show (0 : Nat) < (fragInputE close).length
      omega)]
    simp only [hcc0]
    rw [if_neg (show ¬ ('<' = '"' ∨ '<' = squote ∨ '<' = btick) from by decide)]
    rw [if_neg (show ¬ ('<' = '/' ∧ (⟨fragInputE close, 0, false⟩ :
      ParseContext).peek 1 = some '/') from fun hand => absurd hand.1 (by decide))]
    rw [if_neg (show ¬ ('<' = '/' ∧ (⟨fragInputE close, 0, false⟩ :
      ParseContext).peek 1 = some '*') from fun hand => absurd hand.1 (by decide))]
    rw [if_pos (show True ∧ is_jsx_start ⟨fragInputE close, 0, false⟩ = true
      from ⟨trivial, hjsx⟩)]
    simp only [hparseE K]
    show transpileLoop ((K + 2) + 1) ⟨fragInputE close, 4 + close.length + 1, false⟩ _ = _
    rw [transpileLoop]
    rw [if_neg (show ¬ ((⟨fragInputE close, 4 + close.length + 1, false⟩ :
        ParseContext).pos < (⟨fragInputE close, 4 + close.length + 1, false⟩ :
        ParseContext).source.length) from by
      show ¬ (4 + close.length + 1 < (fragInputE close).length)
      omega)]
  have hskipchE : ∀ (g : Nat) (tn : List Char),
      skip_jsx_children (g + 1) ⟨fragInputE close, 2, false⟩ tn =
        .ok ⟨fragInputE close, 4 + close.length + 1, false⟩ := by
    intro g tn
    rw [skip_jsx_children]
    simp only [skip_ws_noop hd2 (by decide)]
    rw [if_pos ⟨hcc2, hpk2⟩]
    simp only [hadv23, hwsE, hconsE]
  have hskipE : ∀ f : Nat, skip_jsx_element (f + 2) ⟨fragInputE close, 0, false⟩ =
      .ok ⟨fragInputE close, 4 + close.length + 1, false⟩ := by
    intro f
    show skip_jsx_element ((f + 1) + 1) ⟨fragInputE close, 0, false⟩ = _
    rw [skip_jsx_element]
    simp only [hc0]
    rw [if_pos hcc1]
    simp only [show ParseContext.advance ⟨fragInputE close, 1, false⟩ =
      ⟨fragInputE close, 2, false⟩ from rfl]
    exact hskipchE f []
  have hcheckE : ∀ f : Nat, checkLoop (f + 3) ⟨fragInputE close, 0, false⟩ = .ok () := by
    intro f
    show checkLoop ((f + 2) + 1) ⟨fragInputE close, 0, false⟩ = _
    rw [checkLoop]
    rw [if_neg (show ¬ ((⟨fragInputE close, 0, false⟩ :
        ParseContext).source.length ≤ (⟨fragInputE close, 0, false⟩ :
        ParseContext).pos) from by
      show ¬ ((fragInputE close).length ≤ 0)
      omega)]
    simp only [hcc0]
    rw [if_neg (show ¬ ('<' = '"' ∨ '<' = squote ∨ '<' = btick) from by decide)]
    rw [if_neg (show ¬ ('<' = '/' ∧ (⟨fragInputE close, 0, false⟩ :
      ParseContext).peek 1 = some '/') from fun hand => absurd hand.1 (by decide))]
    rw [if_neg (show ¬ ('<' = '/' ∧ (⟨fragInputE close, 0, false⟩ :
      ParseContext).peek 1 = some '*') from fun hand => absurd hand.1 (by decide))]
    rw [if_pos (show True ∧ is_jsx_start ⟨fragInputE close, 0, false⟩ = true
      from ⟨trivial, hjsx⟩)]
    simp only [hskipE f]
    show checkLoop ((f + 1) + 1) _ = _
    rw [checkLoop]
    rw [if_pos (show (⟨fragInputE close, 4 + close.length + 1, false⟩ :
        ParseContext).source.length ≤ (⟨fragInputE close, 4 + close.length + 1, false⟩ :
        ParseContext).pos from by
      show (fragInputE close).length ≤ 4 + close.length + 1
      omega)]
  have hchk : check_for_typescript_syntax (fragInputE close) = .ok () := by
    rw [ check_for_typescript_syntax]
    rw [show 2 * (fragInputE close).length + 16 =
      (2 * (fragInputE close).length + 13) + 3 from by omega]
    exact hcheckE _
  have hfuel : (fragInputE close).length + 4 ≤
      ((fragInputE close).length + 4) * ((fragInputE close).length + 4) :=
    Nat.le_mul_of_pos_left _ (by omega)
  show transpile_jsx (String.mk (fragInputE close)) false = _
  simp only [transpile_jsx]
  rw [show ((String.mk (fragInputE close)).data.length + 4) *
      ((String.mk (fragInputE close)).data.length + 4) =
      (((fragInputE close).length + 4) *
        ((fragInputE close).length + 4) - 5 + 4) + 1 from by
    show ((fragInputE close).length + 4) * ((fragInputE close).length + 4) = _
    omega]
  rw [transpileJsxF]
  rw [if_neg (show ¬ (false = true) from by decide)]
  rw [hchk]
  rw [htlE (((fragInputE close).length + 4) * ((fragInputE close).length + 4) - 5)]
  rfl

/-! ## Theorems for the claims -/

/-- Claim C1: in default (JS) mode the three concrete JSX scenarios
produce exactly the stated factory-call texts, with the fixed runtime
identifier `__hook_jsx_runtime` (written `__runtime` in the spec):
`<div></div>`, `<div className="foo"/>` and `<div>Hi</div>` lower to
the empty-props call, the one-prop call, and the call with a trailing
`children` key. -/
theorem C1_concrete_jsx_scenarios :
    transpile_jsx_simple "<div></div>" =
      .ok "__hook_jsx_runtime.jsx(\"div\", \x7b\x7d)" ∧
    transpile_jsx_simple "<div className=\"foo\"/>" =
      .ok "__hook_jsx_runtime.jsx(\"div\", \x7b className: \"foo\" \x7d)" ∧
    transpile_jsx_simple "<div>Hi</div>" =
      .ok "__hook_jsx_runtime.jsx(\"div\", \x7b children: [\"Hi\"] \x7d)" := by
  refine ⟨rfl, rfl, rfl⟩

/-- Claim C4 (counterexample): the downlevel transformer does not map
`const x = a ?? b;` to the claimed text `var x = (a != null ? a : b);`
(it drops the space after `=` and keeps the operand's leading space). -/
theorem C4_counterexample :
    downlevel_for_jsc "const x = a ?? b;" ≠ "var x = (a != null ? a : b);" := by
  decide

/-- Claim C4 (amended): `const x = obj?.prop;` maps exactly to
`var x = (obj != null ? obj.prop : undefined);`, and
`const x = a ?? b;` maps exactly to `var x =(a != null ? a :  b);`
(no space after `=`, two spaces before `b`, because the nullish rewrite
trims the captured left operand but copies the right operand's leading
whitespace verbatim). -/
theorem C4_amended :
    downlevel_for_jsc "const x = obj?.prop;" =
      "var x = (obj != null ? obj.prop : undefined);" ∧
    downlevel_for_jsc "const x = a ?? b;" = "var x =(a != null ? a :  b);" := by
  refine ⟨rfl, rfl⟩

/-- Claim C7 (counterexample): on `(a.b)?.c` the rewrite does not emit
both copies of the parenthesized object whole: the output is not
`((a.b) != null ? (a.b).c : undefined)`. -/
theorem C7_counterexample :
    downlevel_for_jsc "(a.b)?.c" ≠ "((a.b) != null ? (a.b).c : undefined)" := by
  decide

/-- Claim C7 (amended): on `(a.b)?.c` the backward scan stops just
after the matching opening parenthesis, so the captured object is
`a.b)` (missing its opening paren, keeping the closing one): only the
first copy is completed to `(a.b)` by the retained output prefix, and
the emitted text is `((a.b) != null ? a.b).c : undefined)`. -/
theorem C7_amended :
    downlevel_for_jsc "(a.b)?.c" = "((a.b) != null ? a.b).c : undefined)" := by
  rfl

/-- Claim C8 (counterexample): in `foo <bar>`, the preceding
non-whitespace character `o` is alphanumeric, yet `is_jsx_start`
classifies the `<` at position 4 as a JSX start, and the whole
transpile treats `foo <bar>x</bar>` as JSX. -/
theorem C8_counterexample :
    is_jsx_start { source := "foo <bar>".data, pos := 4, is_typescript := false } = true ∧
    transpile_jsx_simple "foo <bar>x</bar>" =
      .ok "foo __hook_jsx_runtime.jsx(\"bar\", \x7b children: [\"x\"] \x7d)" := by
  refine ⟨rfl, rfl⟩

/-- Claim C8 (amended): the not-JSX rule applies only to the character
immediately before the `<` (whitespace in between defeats it), and it
is overridden by the `</` rule: if the character directly at `pos - 1`
is alphanumeric, `_`, or `$`, and the `<` is not followed by `/`, then
`is_jsx_start` is false. -/
theorem C8_amended (ctx : ParseContext) (h1 : prevWordLike ctx = true)
    (h2 : ctx.peek 1 ≠ some '/') : is_jsx_start ctx = false := by
  unfold is_jsx_start
  by_cases hc : ctx.currentChar = some '<'
  · simp [hc, h1, h2]
  · simp [hc]

/-- Witness for C8_amended at a concrete input (`a<b`, position 1). -/
theorem C8_amended_witness :
    is_jsx_start { source := "a<b".data, pos := 1, is_typescript := false } = false :=
  C8_amended { source := "a<b".data, pos := 1, is_typescript := false } (by decide) (by decide)

/-- Claim C9 (counterexample): a `: {...}` annotation is not removed by
the stripper: `let x: {} = 1;` comes back unchanged (the colon handler
requires a builtin or uppercase-leading identifier word after the
colon; a brace yields an empty word and the colon is kept). -/
theorem C9_counterexample :
    strip_typescript "let x: \x7b\x7d = 1;".data = "let x: \x7b\x7d = 1;".data := by
  rfl

/-- Claim C9 (amended): the stripper removes a `: <type>` region
exactly when the colon is followed (after whitespace) by a builtin type
name or an uppercase-leading identifier; annotations of the form
`: {...}` and `: [...]` are not removed (for `: {a: number}` only the
inner `: number` is stripped, and `: [number]` is untouched). -/
theorem C9_amended :
    (["string", "number", "boolean", "any", "void", "unknown", "never", "object"].all
      fun t => strip_typescript ("let x: " ++ t ++ " = 1;").data == "let x = 1;".data) = true ∧
    strip_typescript "let x: Foo = 1;".data = "let x = 1;".data ∧
    strip_typescript "let x: \x7ba: number\x7d = 1;".data = "let x: \x7ba \x7d = 1;".data ∧
    strip_typescript "let x: [number] = 1;".data = "let x: [number] = 1;".data := by
  refine ⟨by decide, rfl, rfl, rfl⟩

/-- Claim C6: downlevel idempotence — for every input string containing
no occurrence of `?.`, `??`, `const`, or `let`, the ES5 downlevel
transformer returns the input unchanged. -/
theorem C6_downlevel_noop (s : String)
    (h1 : ¬ "?.".data <:+: s.data) (h2 : ¬ "??".data <:+: s.data)
    (h3 : ¬ "const".data <:+: s.data) (h4 : ¬ "let".data <:+: s.data) :
    downlevel_for_jsc s = s := by
  have hm := (dl_master s.data h1 h2 h3 h4 (s.data.length + 1)).1
  have hrun := hm { input := s.data, output := [], pos := 0 } rfl
    (by show (0 : Nat) ≤ s.data.length; omega) (by show s.data.length - 0 < s.data.length + 1; omega)
  rw [downlevel_for_jsc, hrun]
  show String.mk ([] ++ s.data.drop 0) = s
  rw [List.nil_append, List.drop_zero]

/-- Witness for C6_downlevel_noop on a concrete downlevel-free input. -/
theorem C6_downlevel_noop_witness :
    downlevel_for_jsc "var x = a.b; // done" = "var x = a.b; // done" :=
  C6_downlevel_noop "var x = a.b; // done" (by decide) (by decide) (by decide) (by decide)

/-- Claim C5 (counterexample): string/comment opacity fails in the
TypeScript stripper: in `const a = b ? c : Number("interface");` the
token `interface` lies inside a string literal, yet the stripper
deletes it (the ternary's `: Number(...)` is skipped as a type
region, strings included). -/
theorem C5_counterexample :
    ("interface".data <:+: "const a = b ? c : Number(\"interface\");".data) ∧
    strip_typescript "const a = b ? c : Number(\"interface\");".data = "const a = b ? c  ;".data ∧
    ¬ ("interface".data <:+: strip_typescript "const a = b ? c : Number(\"interface\");".data) := by
  refine ⟨by decide, rfl, by decide⟩

/-- Claim C5 (amended): string/comment opacity holds at the level of
every dedicated string/comment handler of the three stages — each one
reproduces exactly a verbatim prefix of the text it scans, with no
rewriting and no error: the JSX stage's string-copy loop (non-backtick
quotes) and line/block comment copies, the downlevel stage's
string-body loop (non-backtick quotes) and block-comment copy, and
the stripper's own string and block-comment copies.  (Opacity fails
only for strings inside skipped type regions, per the
counterexample.) -/
theorem C5_amended :
    (∀ (s : List Char), ∀ fuel q pos t out, q ≠ btick → pos ≤ s.length →
      s.length - pos < fuel →
      ∃ n, pos + n ≤ s.length ∧
        strCopyLoop fuel q ⟨s, pos, t⟩ out =
          .ok ((⟨s, pos + n, t⟩ : ParseContext), out ++ (s.drop pos).take n)) ∧
    (∀ l : List Char, (lineCommentCopy l).1 = l.take (lineCommentCopy l).2) ∧
    (∀ l : List Char, (jsxBlockCopy l).1 = l.take (jsxBlockCopy l).2) ∧
    (∀ (s : List Char) (q : Char), q ≠ btick →
      ∀ fuel (st : Dl), st.input = s → st.pos ≤ s.length → s.length - st.pos < fuel →
      ∃ n, st.pos + n ≤ s.length ∧
        stringLoop fuel q st = ⟨s, st.output ++ (s.drop st.pos).take n, st.pos + n⟩) ∧
    (∀ l : List Char, (blockCommentCopy l).1 = l.take (blockCommentCopy l).2) ∧
    (∀ (q : Char) (l : List Char), (stripStrCopy q l).1 = l.take (stripStrCopy q l).2) ∧
    (∀ l : List Char, (stripBlockCopy l).1 = l.take (stripBlockCopy l).2) :=
  ⟨strCopy_spec,
   fun l => (lineCommentCopy_spec l).1,
   fun l => (jsxBlockCopy_spec l).1,
   fun s q hq => dlStringLoop_verbatim s q hq,
   fun l => (blockCommentCopy_spec l).1,
   fun q l => (stripStrCopy_spec q l).1,
   fun l => (stripBlockCopy_spec l).1⟩

/-- Witness for C5_amended: the hypothesised conjuncts applied to
concrete string bodies containing `??` and `?.`. -/
theorem C5_amended_witness :
    (∃ n, 1 + n ≤ List.length "\"a ?? b\"".data ∧
        strCopyLoop 16 '"' ⟨"\"a ?? b\"".data, 1, false⟩ ['"'] =
          .ok ((⟨"\"a ?? b\"".data, 1 + n, false⟩ : ParseContext),
            ['"'] ++ (("\"a ?? b\"".data).drop 1).take n)) ∧
    (∃ n, 1 + n ≤ List.length "\x27a ?. b\x27".data ∧
        stringLoop 16 squote ⟨"\x27a ?. b\x27".data, [squote], 1⟩ =
          ⟨"\x27a ?. b\x27".data,
            [squote] ++ (("\x27a ?. b\x27".data).drop 1).take n, 1 + n⟩) :=
  ⟨C5_amended.1 "\"a ?? b\"".data 16 '"' 1 false ['"'] (by decide) (by decide) (by decide),
   C5_amended.2.2.2.1 "\x27a ?. b\x27".data squote (by decide) 16
     ⟨"\x27a ?. b\x27".data, [squote], 1⟩ rfl (by decide) (by decide)⟩

/-- Claim C2: fragment law.  For every closing-tag name (any list of
tag-name characters, including the empty name), `<>X</name>` and
`<></name>` transpile without error in default (JS) mode, and both
lower to a factory call on the fixed single-quoted container tag
`'div'`, ignoring the supplied closing name. -/
theorem C2_fragment_law (close : List Char) (hclose : ∀ c ∈ close, tagNameChar c = true) :
    transpile_jsx (String.mk ('<' :: '>' :: 'X' :: '<' :: '/' :: (close ++ ['>']))) false =
      .ok "__hook_jsx_runtime.jsx(\x27div\x27, \x7b children: [\"X\"] \x7d)" ∧
    transpile_jsx (String.mk ('<' :: '>' :: '<' :: '/' :: (close ++ ['>']))) false =
      .ok "__hook_jsx_runtime.jsx(\x27div\x27, \x7b\x7d)" :=
  ⟨fragmentX_result close hclose, fragmentE_result close hclose⟩

/-- Witness for C2_fragment_law: `<>X</span>` and `<></span>`. -/
theorem C2_fragment_law_witness :
    transpile_jsx (String.mk ('<' :: '>' :: 'X' :: '<' :: '/' ::
        ("span".data ++ ['>']))) false =
      .ok "__hook_jsx_runtime.jsx(\x27div\x27, \x7b children: [\"X\"] \x7d)" ∧
    transpile_jsx (String.mk ('<' :: '>' :: '<' :: '/' :: ("span".data ++ ['>']))) false =
      .ok "__hook_jsx_runtime.jsx(\x27div\x27, \x7b\x7d)" :=
  C2_fragment_law "span".data (by decide)

/-- Claim C3: for every non-fragment element `<tag>` (name starting
with a letter, tag-name characters) closed by a different name
`</close>`, transpilation fails with the mismatched-closing-tag error
naming both tags, and the call returns no output text (the `Except`
is an `error`). -/
theorem C3_mismatched_closing (t0 : Char) (trest close : List Char)
    (ht0 : t0.isAlpha = true)
    (htag : ∀ c ∈ t0 :: trest, tagNameChar c = true)
    (hclose : ∀ c ∈ close, tagNameChar c = true)
    (hne : close ≠ t0 :: trest) :
    transpile_jsx
        (String.mk ('<' :: ((t0 :: trest) ++ '>' :: '<' :: '/' :: (close ++ ['>'])))) false =
      .error ("Mismatched closing tag: expected </" ++ String.mk (t0 :: trest) ++
        ">  but got </" ++ String.mk close ++ "> at position " ++
        toString ((t0 :: trest).length + close.length + 5)) := by
  have hlen : (mismatchInput t0 trest close).length =
      (t0 :: trest).length + close.length + 5 := by
    simp only [mismatchInput, List.length_cons, List.length_append, List.length_nil]
    omega
  have hd0 : (mismatchInput t0 trest close).drop 0 =
      '<' :: ((t0 :: trest) ++ '>' :: '<' :: '/' :: (close ++ ['>'])) := rfl
  have hcc0 : (⟨mismatchInput t0 trest close, 0, false⟩ : ParseContext).currentChar =
      some '<' := getElem_opt_of_drop hd0
  have hjsx : is_jsx_start ⟨mismatchInput t0 trest close, 0, false⟩ = true :=
    is_jsx_start_open_tag hd0 prevWordLike_zero ht0 htag (by decide)
  have hchk : check_for_typescript_syntax (mismatchInput t0 trest close) = .ok () := by
    rw [ check_for_typescript_syntax]
    rw [show 2 * (mismatchInput t0 trest close).length + 16 =
      (2 * (mismatchInput t0 trest close).length + 13) + 3 from by omega]
    exact mismatchCheck t0 trest close ht0 htag hclose _
  have hfuel : (mismatchInput t0 trest close).length + 4 ≤
      ((mismatchInput t0 trest close).length + 4) *
        ((mismatchInput t0 trest close).length + 4) :=
    Nat.le_mul_of_pos_left _ (by omega)
  have htl : ∀ K : Nat, transpileLoop (K + 3) ⟨mismatchInput t0 trest close, 0, false⟩ [] =
      .error ("Mismatched closing tag: expected </" ++ String.mk (t0 :: trest) ++
        ">  but got </" ++ String.mk close ++ "> at position " ++
        toString ((t0 :: trest).length + close.length + 5)) := by
    intro K
    show transpileLoop ((K + 2) + 1) ⟨mismatchInput t0 trest close, 0, false⟩ [] = _
    rw [transpileLoop]
    rw [if_pos (show (⟨mismatchInput t0 trest close, 0, false⟩ : ParseContext).pos <
        (⟨mismatchInput t0 trest close, 0, false⟩ : ParseContext).source.length from by
      show (0 : Nat) < (mismatchInput t0 trest close).length
      omega)]
    simp only [hcc0]
    rw [if_neg (show ¬ ('<' = '"' ∨ '<' = squote ∨ '<' = btick) from by decide)]
    rw [if_neg (show ¬ ('<' = '/' ∧ (⟨mismatchInput t0 trest close, 0, false⟩ :
      ParseContext).peek 1 = some '/') from fun hand => absurd hand.1 (by decide))]
    rw [if_neg (show ¬ ('<' = '/' ∧ (⟨mismatchInput t0 trest close, 0, false⟩ :
      ParseContext).peek 1 = some '*') from fun hand => absurd hand.1 (by decide))]
    rw [if_pos (show True ∧ is_jsx_start ⟨mismatchInput t0 trest close, 0, false⟩ = true
      from ⟨trivial, hjsx⟩)]
    simp only [mismatchParse t0 trest close ht0 htag hclose hne K]
  show transpile_jsx (String.mk (mismatchInput t0 trest close)) false = _
  simp only [transpile_jsx]
  rw [show ((String.mk (mismatchInput t0 trest close)).data.length + 4) *
      ((String.mk (mismatchInput t0 trest close)).data.length + 4) =
      ((((mismatchInput t0 trest close).length + 4) *
        ((mismatchInput t0 trest close).length + 4) - 4 + 2) + 1) + 1 from by
    show ((mismatchInput t0 trest close).length + 4) *
      ((mismatchInput t0 trest close).length + 4) = _
    omega]
  rw [transpileJsxF]
  rw [if_neg (show ¬ (false = true) from by decide)]
  show (match
      (match check_for_typescript_syntax (mismatchInput t0 trest close) with
       | .error e => (.error e : Except String (List Char))
       | .ok _ => transpileLoop
           (((mismatchInput t0 trest close).length + 4) *
             ((mismatchInput t0 trest close).length + 4) - 4 + 2 + 1)
           ⟨mismatchInput t0 trest close, 0, false⟩ []) with
    | .ok l => (.ok (String.mk l) : Except String String)
    | .error e => .error e) = _
  rw [hchk]
  show (match transpileLoop
      (((mismatchInput t0 trest close).length + 4) *
        ((mismatchInput t0 trest close).length + 4) - 4 + 2 + 1)
      ⟨mismatchInput t0 trest close, 0, false⟩ [] with
    | .ok l => (.ok (String.mk l) : Except String String)
    | .error e => .error e) = _
  rw [show ((mismatchInput t0 trest close).length + 4) *
      ((mismatchInput t0 trest close).length + 4) - 4 + 2 + 1 =
      (((mismatchInput t0 trest close).length + 4) *
        ((mismatchInput t0 trest close).length + 4) - 4) + 3 from by omega]
  rw [htl (((mismatchInput t0 trest close).length + 4) *
    ((mismatchInput t0 trest close).length + 4) - 4)]

/-- Witness for C3_mismatched_closing: `<div></span>`. -/
theorem C3_mismatched_closing_witness :
    transpile_jsx
        (String.mk ('<' :: (('d' :: ['i', 'v']) ++ '>' :: '<' :: '/' ::
          ("span".data ++ ['>'])))) false =
      .error ("Mismatched closing tag: expected </" ++ String.mk ('d' :: ['i', 'v']) ++
        ">  but got </" ++ String.mk "span".data ++ "> at position " ++
        toString (('d' :: ['i', 'v']).length + "span".data.length + 5)) :=
  C3_mismatched_closing 'd' ['i', 'v'] "span".data (by decide) (by decide) (by decide)
    (by decide)

/-- Claim C10: pass-through identity.  For every input with no `<`
and no backtick character, `transpile_jsx` in plain-JS mode either
fails with the TypeScript-syntax rejection produced by
`check_for_typescript_syntax`, or returns the input string exactly
unchanged. -/
theorem C10_passthrough (s : String) (h1 : '<' ∉ s.data) (h2 : btick ∉ s.data) :
    (∃ e, check_for_typescript_syntax s.data = .error e ∧
        transpile_jsx s false = .error e) ∨
      transpile_jsx s false = .ok s := by
  have hfuel : s.data.length + 4 ≤ (s.data.length + 4) * (s.data.length + 4) :=
    Nat.le_mul_of_pos_left _ (by omega)
  have hmain : transpile_jsx s false =
      (match check_for_typescript_syntax s.data with
       | .error e => (.error e : Except String String)
       | .ok _ => .ok s) := by
    rw [transpile_jsx,
      show (s.data.length + 4) * (s.data.length + 4) =
        ((s.data.length + 4) * (s.data.length + 4) - 1) + 1 from by omega,
      transpileJsxF]
    rw [if_neg (show ¬ (false = true) from by decide)]
    cases hchk : check_for_typescript_syntax s.data with
    | error e => simp only [hchk]
    | ok u =>
      simp only [hchk]
      rw [transpileLoop_id s.data h1 h2 ((s.data.length + 4) * (s.data.length + 4) - 1)
        ⟨s.data, 0, false⟩ [] rfl (by show (0 : Nat) ≤ s.data.length; omega)
        (by show s.data.length - 0 < (s.data.length + 4) * (s.data.length + 4) - 1; omega)]
      show Except.ok (String.mk ([] ++ s.data.drop 0)) = Except.ok s
      rw [List.nil_append, List.drop_zero]
  cases hchk : check_for_typescript_syntax s.data with
  | error e =>
    refine .inl ⟨e, rfl, ?_⟩
    rw [hmain, hchk]
  | ok u =>
    refine .inr ?_
    rw [hmain, hchk]

/-- Witness for C10_passthrough on a concrete JSX-free input. -/
theorem C10_passthrough_witness :
    (∃ e, check_for_typescript_syntax "var x = 1; // ok".data = .error e ∧
        transpile_jsx "var x = 1; // ok" false = .error e) ∨
      transpile_jsx "var x = 1; // ok" false = .ok "var x = 1; // ok" :=
  C10_passthrough "var x = 1; // ok" (by decide) (by decide)

end HookT
